import Mathlib

/-!
Verification development for the Tokyo Stock Explorer script (`eros.py`).

The script is a linear pandas/streamlit pipeline:
load (remote fetch per symbol, or CSV upload) → derive columns →
symbol filter → date filter → CSV export → chart render.

We embed the data model shallowly:
* a pandas DataFrame is a `Frame`: a header (column names) plus rows of
  typed cells (`Cell`): strings, integers (numeric dtypes are modelled by
  `Int`; floating point is not modelled), or timestamps;
* timestamps carry a calendar date plus seconds-within-day, mirroring
  `datetime64` values whose `.dt.date` accessor drops the time of day;
* CSV bytes are modelled as the underlying character list of a `String`
  (UTF-8 encoding of strings is bijective, so we stay at the string level);
* each pandas operation used by the script is translated to an executable
  Lean function; operations that can raise are `Option`/`Except` valued.
-/

namespace Eros

/-- Calendar date (as produced by `Timestamp.date()` / `st.date_input`). -/
structure Dte where
  y : Nat
  m : Nat
  d : Nat
deriving DecidableEq, Repr

/-- Calendar-date order is lexicographic on (year, month, day);
this is how python `datetime.date` compares. -/
def dateLE (a b : Dte) : Bool :=
  (a.y < b.y) || (a.y = b.y && ((a.m < b.m) || (a.m = b.m && a.d ≤ b.d)))

/-- A `datetime64` value: calendar date plus seconds within the day. -/
structure Timestamp where
  date : Dte
  sec : Nat
deriving DecidableEq, Repr

/-- Timestamp order: date-major, then time of day (python datetime order). -/
def tsLE (a b : Timestamp) : Bool :=
  (dateLE a.date b.date && !(dateLE b.date a.date)) ||
  (a.date = b.date && a.sec ≤ b.sec)

/-- One DataFrame cell: a string, an integer, or a timestamp. -/
inductive Cell where
  | s : String → Cell
  | i : Int → Cell
  | t : Timestamp → Cell
deriving DecidableEq, Repr

/-- A DataFrame: column names plus rows of cells (row-major). -/
structure Frame where
  header : List String
  rows : List (List Cell)
deriving DecidableEq, Repr

/-- Index of the first column with the given name (models `df[name]`
column lookup, which takes the first match). -/
def hdrIdx : List String → String → Option Nat
  | [], _ => none
  | h :: t, nm => if h = nm then some 0 else (hdrIdx t nm).map (· + 1)

/-- The cell of `row` in the column named `name`. -/
def colCell (hdr : List String) (name : String) (row : List Cell) : Option Cell :=
  (hdrIdx hdr name).bind (fun j => row[j]?)

/-! ### Decimal digit rendering and parsing (character level) -/

/-- The ASCII digit character for `d % 10`. -/
def digitChar (d : Nat) : Char :=
  match d % 10 with
  | 0 => '0' | 1 => '1' | 2 => '2' | 3 => '3' | 4 => '4'
  | 5 => '5' | 6 => '6' | 7 => '7' | 8 => '8' | _ => '9'

/-- Digit characters of `n`, most significant first; `[]` for `0`.
Fuel-structured so it reduces definitionally. -/
def natDigitsAux : Nat → Nat → List Char
  | 0, _ => []
  | _ + 1, 0 => []
  | fuel + 1, n + 1 => natDigitsAux fuel ((n + 1) / 10) ++ [digitChar ((n + 1) % 10)]

/-- Decimal rendering of a natural number (as python `str` does). -/
def renderNat (n : Nat) : List Char :=
  if n = 0 then ['0'] else natDigitsAux n n

/-- Reads a decimal digit string (most significant first). -/
def parseNatChars (l : List Char) : Nat :=
  l.foldl (fun a c => 10 * a + (c.toNat - 48)) 0

/-- Decimal rendering of an integer (as pandas renders int64 cells). -/
def intChars : Int → List Char
  | Int.ofNat n => renderNat n
  | Int.negSucc n => '-' :: renderNat (n + 1)

/-- Reads an optionally-signed decimal string. -/
def parseIntChars (l : List Char) : Int :=
  match l with
  | [] => 0
  | c :: rest => if c = '-' then -(parseNatChars rest : Int) else (parseNatChars (c :: rest) : Int)

/-- Whether `read_csv` would infer this token as an integer:
an optional leading minus sign followed by one or more digits. -/
def isIntStr (l : List Char) : Bool :=
  match l with
  | [] => false
  | c :: rest => if c = '-' then (!rest.isEmpty && rest.all Char.isDigit)
                 else (c :: rest).all Char.isDigit

/-- Left-pads the decimal rendering of `n` with zeros to width `w`. -/
def padNat (w n : Nat) : List Char :=
  List.replicate (w - (renderNat n).length) '0' ++ renderNat n

/-! ### Date / timestamp rendering and parsing -/

/-- Renders a calendar date as `YYYY-MM-DD` (pandas CSV date format). -/
def dateChars (d : Dte) : List Char :=
  padNat 4 d.y ++ '-' :: (padNat 2 d.m ++ '-' :: padNat 2 d.d)

/-- Renders seconds-within-day as `HH:MM:SS`. -/
def timeChars (sec : Nat) : List Char :=
  padNat 2 (sec / 3600) ++ ':' :: (padNat 2 (sec % 3600 / 60) ++ ':' :: padNat 2 (sec % 60))

/-- Renders a timestamp the way `to_csv` renders `datetime64` cells:
date only at midnight, otherwise `YYYY-MM-DD HH:MM:SS`. -/
def tsChars (ts : Timestamp) : List Char :=
  dateChars ts.date ++ (if ts.sec = 0 then [] else ' ' :: timeChars ts.sec)

/-- Splits a character list on a separator; `n` separators yield `n + 1`
(possibly empty) groups. -/
def splitSep (sep : Char) : List Char → List (List Char)
  | [] => [[]]
  | c :: rest =>
    match splitSep sep rest with
    | [] => [[c]]
    | g :: gs => if c = sep then [] :: g :: gs else (c :: g) :: gs

/-- A nonempty all-digit token. -/
def digitsTok (l : List Char) : Bool :=
  !l.isEmpty && l.all Char.isDigit

/-- Parses `YYYY-MM-DD` (models the date part accepted by `pd.to_datetime`). -/
def parseDateChars (l : List Char) : Option Dte :=
  match splitSep '-' l with
  | [a, b, c] =>
    if digitsTok a && digitsTok b && digitsTok c then
      some ⟨parseNatChars a, parseNatChars b, parseNatChars c⟩
    else none
  | _ => none

/-- Parses `HH:MM:SS`. -/
def parseTimeChars (l : List Char) : Option Nat :=
  match splitSep ':' l with
  | [a, b, c] =>
    if digitsTok a && digitsTok b && digitsTok c then
      some (parseNatChars a * 3600 + parseNatChars b * 60 + parseNatChars c)
    else none
  | _ => none

/-- Parses a timestamp: a date, optionally followed by a time of day
(the formats `to_csv` emits and `pd.to_datetime` reads back). -/
def parseTsChars (l : List Char) : Option Timestamp :=
  match splitSep ' ' l with
  | [d] => (parseDateChars d).map (fun dd => ⟨dd, 0⟩)
  | [d, t] =>
    match parseDateChars d, parseTimeChars t with
    | some dd, some tt => some ⟨dd, tt⟩
    | _, _ => none
  | _ => none

/-! ### CSV rendering (models `df.to_csv(index=False).encode('utf-8')`) -/

/-- Characters of one cell as `to_csv` renders it. -/
def cellChars : Cell → List Char
  | .s str => str.data
  | .i k => intChars k
  | .t ts => tsChars ts

/-- Joins cell renderings with commas. -/
def cellsJoin : List (List Char) → List Char
  | [] => []
  | [c] => c
  | c :: cs => c ++ ',' :: cellsJoin cs

/-- Joins lines, terminating every line with a newline
(`to_csv` ends each row, including the last, with `\n`). -/
def linesJoin (ls : List (List Char)) : List Char :=
  (ls.map (· ++ ['\n'])).flatten

/-- Characters of the CSV serialization: header row then data rows,
no index column. -/
def csvChars (f : Frame) : List Char :=
  linesJoin (cellsJoin (f.header.map String.data) :: f.rows.map (fun r => cellsJoin (r.map cellChars)))

/-- Models `convert_df_to_csv` (eros.py lines 118-120): `to_csv(index=False)`
followed by UTF-8 encoding; UTF-8 encoding of strings is injective, so the
byte sequence is modelled by the string itself. The `@st.cache_data`
decorator only memoizes and is behaviorally transparent. -/
def convert_df_to_csv (df : Frame) : String :=
  ⟨csvChars df⟩

/-! ### CSV parsing (models `pd.read_csv`) -/

/-- Whether every entry of column `j` tokenizes as an integer
(`read_csv` infers a column dtype from all of its entries). -/
def allIntCol (raw : List (List (List Char))) (j : Nat) : Bool :=
  raw.all (fun r => isIntStr (r.getD j []))

/-- Converts one tokenized row to cells, consulting the per-column
integer flag; columns that are not all-integer stay strings. -/
def convCells (flag : Nat → Bool) : Nat → List (List Char) → List Cell
  | _, [] => []
  | j, c :: rest =>
    (if flag j then Cell.i (parseIntChars c) else Cell.s ⟨c⟩) :: convCells flag (j + 1) rest

/-- Models `pd.read_csv` on an in-memory file: split into lines (blank
lines are skipped, including the trailing one), first line is the header,
reject ragged rows (ParserError) and empty input (EmptyDataError), and
per column infer integer dtype when every entry parses as an integer,
otherwise keep strings. The float, boolean, infinity and per-field NA
conversions of `read_csv` are not modelled; every token those converters
accept is built solely from `convertibleChar` characters, so the
round-trip theorem's well-formedness fence (`plainToken` inside
`cellStrOk`) requires each string cell to carry a character outside that
set, and on such frames this model and `pd.read_csv` agree. -/
def readCsv (s : String) : Option Frame :=
  match (splitSep '\n' s.data).filter (fun l => !l.isEmpty) with
  | [] => none
  | h :: data =>
    let hdr := (splitSep ',' h).map (fun c => (⟨c⟩ : String))
    let raw := data.map (splitSep ',')
    if raw.all (fun r => r.length = hdr.length) then
      some ⟨hdr, raw.map (fun r => convCells (allIntCol raw) 0 r)⟩
    else none

/-- Models `pd.to_datetime` on one cell: timestamps pass through, strings
are parsed (failure raises, i.e. `none`). Integer epoch-nanosecond input
is not modelled and maps to `none`. -/
def coerceDateCell : Cell → Option Cell
  | .t ts => some (.t ts)
  | .s str => (parseTsChars str.data).map .t
  | .i _ => none

/-- Rewrites the cell at index `j` through `coerceDateCell`. -/
def coerceRow (j : Nat) (row : List Cell) : Option (List Cell) :=
  match row[j]? with
  | some c => (coerceDateCell c).map (row.set j)
  | none => none

/-- Applies `coerceRow` to every row; the first failure raises
(as the vectorized `pd.to_datetime` does). -/
def coerceRows (j : Nat) : List (List Cell) → Option (List (List Cell))
  | [] => some []
  | r :: rest =>
    match coerceRow j r with
    | some r' => (coerceRows j rest).map (fun rs => r' :: rs)
    | none => none

/-- Models eros.py lines 90-91: `if 'Date' in df.columns:
df['Date'] = pd.to_datetime(df['Date'])`. -/
def coerceFrame (f : Frame) : Option Frame :=
  match hdrIdx f.header "Date" with
  | none => some f
  | some j => (coerceRows j f.rows).map (fun rs => ⟨f.header, rs⟩)

/-- Models the upload loader (eros.py lines 89-91): `pd.read_csv` followed
by the conditional `Date` coercion. This is also the only parse routine in
the repository, hence the reading of "parsing exported bytes back into a
Dataset". -/
def readUpload (s : String) : Option Frame :=
  (readCsv s).bind coerceFrame

/-! ### Remote loader (models `load_tokyo_data`, eros.py lines 51-80) -/

/-- One daily bar as returned by `yf.download` after `reset_index`:
the date index column plus OHLCV. (`Adj Close` is not part of the spec's
data model and is omitted; prices are modelled as integers.) -/
structure RawRow where
  date : Timestamp
  opn : Int
  high : Int
  low : Int
  close : Int
  volume : Int
deriving DecidableEq, Repr

/-- The fixed display-name → ticker mapping (eros.py lines 53-64),
in source order. -/
def companies : List (String × String) :=
  [("SONY", "6758.T"),
   ("TOYOTA", "7203.T"),
   ("HONDA", "7267.T"),
   ("MITSUBISHI CORP", "8058.T"),
   ("NISSAN MOTOR CORP", "7201.T"),
   ("NIPPON STEEL CORP", "5401.T"),
   ("HITACHI", "6501.T"),
   ("NINTENDO", "7974.T"),
   ("FUJITSU", "6702.T"),
   ("JAPAN AIRLINES", "9201.T")]

/-- Header of the assembled remote Dataset. `reset_index` puts `Date`
first, then OHLCV, then the appended `Symbol`, `Price_change` and
`High_Low_Spread` columns. -/
def tokyoHeader : List String :=
  ["Date", "Open", "High", "Low", "Close", "Volume", "Symbol",
   "Price_change", "High_Low_Spread"]

/-- One enriched row of the remote Dataset. The two derived columns
(`Close - Open`, `High - Low`, eros.py lines 77-78) are row-local, so
computing them at row construction is equivalent to adding whole columns
after `pd.concat`; `pd.to_datetime` on line 79 is the identity here since
the dates are already timestamps. -/
def tokyoRow (name : String) (r : RawRow) : List Cell :=
  [.t r.date, .i r.opn, .i r.high, .i r.low, .i r.close, .i r.volume,
   .s name, .i (r.close - r.opn), .i (r.high - r.low)]

/-- The `st.warning` message for a failed symbol (eros.py line 74;
the appended exception text is irrelevant and omitted). -/
def failMsg (name : String) : String :=
  "Failed to load " ++ name

/-- The one load-time failure: `pd.concat` on an empty frame list raises
`ValueError` when every per-symbol fetch failed. -/
inductive LoadErr where
  | concat : LoadErr
deriving DecidableEq, Repr

/-- Models `load_tokyo_data` (eros.py lines 51-80). The network call is
abstracted as `fetch : ticker → Option (list of bars)`; `none` models
`yf.download` raising. Per symbol: on success the bars are tagged with the
display name and collected, on failure a warning is emitted and the loop
continues. The collected frames are concatenated (raising when none
succeeded) and the derived columns added. The `@st.cache_data` decorator
only memoizes and is behaviorally transparent. -/
def load_tokyo_data (fetch : String → Option (List RawRow)) :
    List String × Except LoadErr Frame :=
  let warnings := companies.filterMap
    (fun p => if (fetch p.2).isNone then some (failMsg p.1) else none)
  let frames := companies.filterMap
    (fun p => (fetch p.2).map (fun rs => rs.map (tokyoRow p.1)))
  (warnings,
   if frames.isEmpty then .error .concat
   else .ok ⟨tokyoHeader, frames.flatten⟩)

/-! ### Filters (eros.py lines 99-111) -/

/-- The cells of the column named `name`, in row order
(models `df[name]` as a sequence of values). -/
def colCells (f : Frame) (name : String) : List Cell :=
  match hdrIdx f.header name with
  | some j => f.rows.filterMap (fun r => r[j]?)
  | none => []

/-- First-occurrence deduplication, models `Series.unique()`. -/
def uniqueCells (l : List Cell) : List Cell :=
  l.foldl (fun acc c => if c ∈ acc then acc else acc ++ [c]) []

/-- Models the symbol filter (eros.py lines 99-102): when a `Symbol`
column exists, keep exactly the rows whose symbol cell equals the
selection (`df[df['Symbol'] == selected_stock]`); otherwise the Dataset
passes through unchanged. -/
def symbolFilter (sel : Cell) (f : Frame) : Frame :=
  if "Symbol" ∈ f.header then
    ⟨f.header, f.rows.filter (fun r => decide (colCell f.header "Symbol" r = some sel))⟩
  else f

/-- The timestamp of a row's `Date` cell, when it is a timestamp. -/
def rowTs (hdr : List String) (row : List Cell) : Option Timestamp :=
  match colCell hdr "Date" row with
  | some (.t ts) => some ts
  | _ => none

/-- Models the date filter (eros.py line 111):
`df[(df['Date'].dt.date >= user_start) & (df['Date'].dt.date <= user_end)]`.
Only the calendar-date part of the timestamp is compared; both bounds are
inclusive. (In the script every `Date` cell is a timestamp by the time
this runs; rows without one cannot occur and are dropped.) -/
def dateFilter (us ue : Dte) (f : Frame) : Frame :=
  ⟨f.header, f.rows.filter (fun r =>
    match rowTs f.header r with
    | some ts => dateLE us ts.date && dateLE ts.date ue
    | none => false)⟩

/-- Errors the module-level code can raise. `concat` is the `ValueError`
from `pd.concat([])`; `readFail` a `read_csv` parse failure; `dateCoerce`
a `pd.to_datetime` failure; `key c` a missing column `c`; `dtype` calling
`.date()` on non-timestamp values; `emptyMin` calling `.date()` on the
`NaN` that `min()` returns for an empty column. -/
inductive PipeErr where
  | concat : PipeErr
  | key : String → PipeErr
  | readFail : PipeErr
  | dateCoerce : PipeErr
  | dtype : PipeErr
  | emptyMin : PipeErr
deriving DecidableEq, Repr

/-- Extracts the timestamps of column `j` of every row; `none` when some
cell is not a timestamp. -/
def extractTs (j : Nat) : List (List Cell) → Option (List Timestamp)
  | [] => some []
  | r :: rest =>
    match r[j]? with
    | some (.t ts) => (extractTs j rest).map (ts :: ·)
    | _ => none

/-- Timestamp minimum. -/
def minTs (a b : Timestamp) : Timestamp := if tsLE a b then a else b

/-- Timestamp maximum. -/
def maxTs (a b : Timestamp) : Timestamp := if tsLE a b then b else a

/-- Models eros.py lines 106-107: `df['Date'].min().date()` and
`df['Date'].max().date()`. Raises `KeyError` when there is no `Date`
column; raises when the column is not datetime-typed (`.date()` on a
non-timestamp); raises when the Dataset is empty (`.date()` on the `NaN`
that `min()` returns for an empty column). -/
def dateMinMax (f : Frame) : Except PipeErr (Dte × Dte) :=
  match hdrIdx f.header "Date" with
  | none => .error (.key "Date")
  | some j =>
    match extractTs j f.rows with
    | none => .error .dtype
    | some [] => .error .emptyMin
    | some (t :: ts) => .ok ((ts.foldl minTs t).date, (ts.foldl maxTs t).date)

/-- Whether the chart render succeeds: `sns.lineplot` / `px.line` with
`y='Close'` need a `Close` column with numeric values (eros.py lines
132-143); a missing column or non-numeric values raise. -/
def closeOk (f : Frame) : Bool :=
  match hdrIdx f.header "Close" with
  | some j => f.rows.all (fun r =>
      match r[j]? with
      | some (.i _) => true
      | _ => false)
  | none => false

/-! ### The module-level script -/

/-- Data-source choice (eros.py line 48). -/
inductive Mode where
  | tokyo : Mode
  | upload : Mode
deriving DecidableEq, Repr

/-- Result of one top-to-bottom run of the script.
`stopped` models `st.stop()` (halt awaiting input, no error);
`completed` carries the filtered Dataset, its CSV export and the load
warnings; `failed` models an unhandled exception reaching the user. -/
inductive Outcome where
  | stopped : Outcome
  | completed : Frame → String → List String → Outcome
  | failed : PipeErr → List String → Outcome
deriving DecidableEq, Repr

/-- A run is non-fatal when no unhandled exception is raised. -/
def nonFatal : Outcome → Prop
  | .failed _ _ => False
  | _ => True

/-- Models the post-load part of the module-level pipeline: symbol filter
(eros.py lines 99-102, with `selected_stock = pick options`, streamlit's
selectbox returning one of the options), date bounds (106-109), date
filter (111), CSV export (118-127), chart render (132-143). The date
widgets' min/max clamping is not modelled because nothing downstream
depends on it; chart-type choice and the table toggle do not affect the
pipeline. -/
def afterLoad (pick : List Cell → Cell) (us ue : Dte)
    (df : Frame) (ws : List String) : Outcome :=
  let df1 := if "Symbol" ∈ df.header then
    symbolFilter (pick (uniqueCells (colCells df "Symbol"))) df else df
  match dateMinMax df1 with
  | .error e => .failed e ws
  | .ok _ =>
    let df2 := dateFilter us ue df1
    let csv := convert_df_to_csv df2
    if closeOk df2 then .completed df2 csv ws
    else .failed (.key "Close") ws

/-- Models the whole module-level pipeline of eros.py as one total
function: data-source branch (lines 83-95, with `st.stop()` when upload
mode has no file), then `afterLoad`. -/
def script (mode : Mode) (fetch : String → Option (List RawRow))
    (uploadedFile : Option String) (pick : List Cell → Cell)
    (us ue : Dte) : Outcome :=
  match mode with
  | .tokyo =>
    match load_tokyo_data fetch with
    | (ws, .error .concat) => .failed .concat ws
    | (ws, .ok df) => afterLoad pick us ue df ws
  | .upload =>
    match uploadedFile with
    | none => .stopped
    | some content =>
      match readCsv content with
      | none => .failed .readFail []
      | some df0 =>
        match coerceFrame df0 with
        | none => .failed .dateCoerce []
        | some df => afterLoad pick us ue df []

/-- The composed filter step of the pipeline, as the script applies it:
symbol selection (lines 99-102) then date range (line 111). -/
def selectFilters (sel : Cell) (us ue : Dte) (f : Frame) : Frame :=
  dateFilter us ue (symbolFilter sel f)

/-- Streamlit's selectbox default: the first option. -/
def pickFirst (l : List Cell) : Cell :=
  l.getD 0 (.s "")

/-! ### Basic lemmas about the filters -/

theorem symbolFilter_header (sel : Cell) (f : Frame) :
    (symbolFilter sel f).header = f.header := by
  unfold symbolFilter
  split <;> rfl

theorem dateFilter_rows (us ue : Dte) (f : Frame) :
    (dateFilter us ue f).rows = f.rows.filter (fun r =>
      match rowTs f.header r with
      | some ts => dateLE us ts.date && dateLE ts.date ue
      | none => false) := rfl

theorem dateLE_refl (d : Dte) : dateLE d d = true := by
  simp [dateLE]

theorem dateLE_trans {a b c : Dte} (h1 : dateLE a b = true) (h2 : dateLE b c = true) :
    dateLE a c = true := by
  simp only [dateLE, Bool.or_eq_true, Bool.and_eq_true, decide_eq_true_eq] at h1 h2 ⊢
  omega

theorem mem_symbolFilter_rows {sel : Cell} {f : Frame} {row : List Cell}
    (hmem : "Symbol" ∈ f.header)
    (hrow : row ∈ (symbolFilter sel f).rows) :
    row ∈ f.rows ∧ colCell f.header "Symbol" row = some sel := by
  unfold symbolFilter at hrow
  rw [if_pos hmem] at hrow
  have h := List.mem_filter.mp hrow
  exact ⟨h.1, of_decide_eq_true h.2⟩

/-- Keeping only elements satisfying a predicate they all already satisfy
changes nothing; instance for twice-filtered lists. -/
theorem filter_absorb_left {α} (p q : α → Bool) (l : List α) :
    List.filter p (List.filter q (List.filter p l)) =
      List.filter q (List.filter p l) :=
  List.filter_eq_self.mpr
    (fun _ ha => (List.mem_filter.mp (List.mem_filter.mp ha).1).2)

theorem filter_idem_self {α} (q : α → Bool) (l : List α) :
    List.filter q (List.filter q l) = List.filter q l :=
  List.filter_eq_self.mpr (fun _ ha => (List.mem_filter.mp ha).2)

/-! ### Claims C5-C10 -/

/-- C9: in upload mode with no file supplied, the script reaches
`st.stop()` (lines 93-95) before the symbol filter, the date filter, the
CSV export and the chart render, and no exception is raised: the run ends
in the `stopped` state by construction of the pipeline. -/
theorem c9_upload_no_file_halts (fetch : String → Option (List RawRow))
    (pick : List Cell → Cell) (us ue : Dte) :
    script .upload fetch none pick us ue = .stopped := rfl

/-- C8: the filter pipeline is a stable filter: the rows of the filtered
output form a sublist of the input rows, i.e. they appear in the same
relative order as in the input, with no re-sorting. -/
theorem c8_filter_stable (sel : Cell) (us ue : Dte) (f : Frame) :
    (selectFilters sel us ue f).rows.Sublist f.rows := by
  have h1 : (symbolFilter sel f).rows.Sublist f.rows := by
    unfold symbolFilter
    split
    · exact List.filter_sublist _
    · exact List.Sublist.refl _
  exact List.Sublist.trans (List.filter_sublist _) h1

/-- C7: filtering is idempotent: applying the symbol+date filter twice
with the same parameters yields the same Dataset as applying it once. -/
theorem c7_filter_idempotent (sel : Cell) (us ue : Dte) (f : Frame) :
    selectFilters sel us ue (selectFilters sel us ue f) =
      selectFilters sel us ue f := by
  by_cases h : "Symbol" ∈ f.header
  · simp only [selectFilters, symbolFilter, dateFilter, if_pos h]
    refine congrArg (Frame.mk f.header) ?_
    rw [filter_absorb_left, filter_absorb_left]
  · simp only [selectFilters, symbolFilter, dateFilter, if_neg h]
    exact congrArg (Frame.mk f.header) (filter_idem_self _ _)

/-- C6: the symbol filter restricts a Dataset having a symbol column to
exactly the rows whose symbol equals the selected symbol: every output
row carries the selection, and no source row carrying any other symbol
appears in the output. -/
theorem c6_symbol_filter (f : Frame) (s : String) (h : "Symbol" ∈ f.header) :
    (∀ row ∈ (symbolFilter (.s s) f).rows,
        colCell f.header "Symbol" row = some (.s s)) ∧
    (∀ c : Cell, c ≠ .s s → ∀ row ∈ f.rows,
        colCell f.header "Symbol" row = some c →
        row ∉ (symbolFilter (.s s) f).rows) := by
  constructor
  · intro row hrow
    exact (mem_symbolFilter_rows h hrow).2
  · intro c hc row _ hcol hmem
    have h2 := (mem_symbolFilter_rows h hmem).2
    rw [hcol] at h2
    exact hc (Option.some.inj h2)

/-- Witness for C6 at a concrete two-symbol Dataset. -/
theorem c6_symbol_filter_witness :
    colCell (Frame.mk ["Symbol"] [[Cell.s "AA"], [Cell.s "BB"]]).header
      "Symbol" [Cell.s "AA"] = some (.s "AA") :=
  (c6_symbol_filter ⟨["Symbol"], [[Cell.s "AA"], [Cell.s "BB"]]⟩ "AA"
      (by decide)).1 [Cell.s "AA"] (by decide)

/-- C10: the date filter compares only the calendar-date part of the
timestamp: a row is retained whenever its calendar date lies in the
inclusive range, regardless of its time of day `sec`. -/
theorem c10_calendar_date_only (f : Frame) (us ue : Dte) (row : List Cell)
    (d : Dte) (sec : Nat)
    (hts : rowTs f.header row = some ⟨d, sec⟩)
    (hrow : row ∈ f.rows)
    (h1 : dateLE us d = true) (h2 : dateLE d ue = true) :
    row ∈ (dateFilter us ue f).rows := by
  rw [dateFilter_rows]
  refine List.mem_filter.mpr ⟨hrow, ?_⟩
  show (match rowTs f.header row with
        | some ts => dateLE us ts.date && dateLE ts.date ue
        | none => false) = true
  rw [hts]
  simp [h1, h2]

/-- Witness for C10: a row timestamped 23:59:59 late on the end date is
still retained. -/
theorem c10_calendar_date_only_witness :
    [Cell.t ⟨⟨2024, 1, 31⟩, 86399⟩] ∈
      (dateFilter ⟨2024, 1, 1⟩ ⟨2024, 1, 31⟩
        ⟨["Date"], [[Cell.t ⟨⟨2024, 1, 31⟩, 86399⟩]]⟩).rows :=
  c10_calendar_date_only ⟨["Date"], [[Cell.t ⟨⟨2024, 1, 31⟩, 86399⟩]]⟩
    ⟨2024, 1, 1⟩ ⟨2024, 1, 31⟩ [Cell.t ⟨⟨2024, 1, 31⟩, 86399⟩]
    ⟨2024, 1, 31⟩ 86399 (by decide) (by decide) (by decide) (by decide)

/-- C5 counterexample: the claim quantifies over every `start_date` and
`end_date`, but when `start_date > end_date` (which the script permits:
the two date widgets are clamped to [min, max] independently), a row
whose date equals `start_date` is not retained: with start 2024-02-01 and
end 2024-01-01, the single row dated 2024-02-01 is dropped. -/
theorem c5_counterexample :
    (dateFilter ⟨2024, 2, 1⟩ ⟨2024, 1, 1⟩
        ⟨["Date"], [[Cell.t ⟨⟨2024, 2, 1⟩, 0⟩]]⟩).rows = [] ∧
    rowTs ["Date"] [Cell.t ⟨⟨2024, 2, 1⟩, 0⟩] =
      some ⟨⟨2024, 2, 1⟩, 0⟩ :=
  ⟨rfl, rfl⟩

/-- C5 (amended): provided `start_date <= end_date`, a row whose date
equals either bound is retained; and unconditionally, every retained row
satisfies `start_date <= date <= end_date`. -/
theorem c5_inclusive_bounds (f : Frame) (us ue : Dte) (row : List Cell)
    (ts : Timestamp) (hts : rowTs f.header row = some ts) :
    (dateLE us ue = true → row ∈ f.rows → (ts.date = us ∨ ts.date = ue) →
        row ∈ (dateFilter us ue f).rows) ∧
    (row ∈ (dateFilter us ue f).rows →
        dateLE us ts.date = true ∧ dateLE ts.date ue = true) := by
  constructor
  · intro hrange hrow hor
    rw [dateFilter_rows]
    refine List.mem_filter.mpr ⟨hrow, ?_⟩
    show (match rowTs f.header row with
          | some ts => dateLE us ts.date && dateLE ts.date ue
          | none => false) = true
    rw [hts]
    rcases hor with h | h <;> simp [h, dateLE_refl, hrange]
  · intro hmem
    rw [dateFilter_rows] at hmem
    have h2 := (List.mem_filter.mp hmem).2
    revert h2
    show (match rowTs f.header row with
          | some ts => dateLE us ts.date && dateLE ts.date ue
          | none => false) = true → _
    rw [hts]
    intro h2
    simpa using h2

/-- Witness for C5: a row dated exactly on the start bound is retained
when the range is well ordered. -/
theorem c5_inclusive_bounds_witness :
    [Cell.t ⟨⟨2024, 1, 10⟩, 0⟩] ∈
      (dateFilter ⟨2024, 1, 10⟩ ⟨2024, 1, 31⟩
        ⟨["Date"], [[Cell.t ⟨⟨2024, 1, 10⟩, 0⟩]]⟩).rows :=
  (c5_inclusive_bounds ⟨["Date"], [[Cell.t ⟨⟨2024, 1, 10⟩, 0⟩]]⟩
      ⟨2024, 1, 10⟩ ⟨2024, 1, 31⟩ [Cell.t ⟨⟨2024, 1, 10⟩, 0⟩]
      ⟨⟨2024, 1, 10⟩, 0⟩ (by decide)).1
    (by decide) (by decide) (Or.inl rfl)

/-! ### Claims C4 and C1 (the remote loader) -/

/-- C4: per-symbol fetch failure is isolated. If symbol A's fetch
succeeds and symbol B's raises, then the loader records the warning for
B, still returns a Dataset (no total failure), and that Dataset contains
every one of A's rows (tagged and enriched). -/
theorem c4_fetch_isolation (fetch : String → Option (List RawRow))
    (nA tA : String) (rsA : List RawRow) (nB tB : String)
    (hA : (nA, tA) ∈ companies) (hfA : fetch tA = some rsA)
    (hB : (nB, tB) ∈ companies) (hfB : fetch tB = none) :
    failMsg nB ∈ (load_tokyo_data fetch).1 ∧
    ∃ df, (load_tokyo_data fetch).2 = .ok df ∧
      ∀ r ∈ rsA, tokyoRow nA r ∈ df.rows := by
  constructor
  · show failMsg nB ∈ companies.filterMap
      (fun p => if (fetch p.2).isNone then some (failMsg p.1) else none)
    exact List.mem_filterMap.mpr ⟨(nB, tB), hB, by rw [hfB]; rfl⟩
  · have hmem : rsA.map (tokyoRow nA) ∈ companies.filterMap
        (fun p => (fetch p.2).map (fun rs => rs.map (tokyoRow p.1))) :=
      List.mem_filterMap.mpr ⟨(nA, tA), hA, by rw [hfA]; rfl⟩
    have hne : (companies.filterMap
        (fun p => (fetch p.2).map (fun rs => rs.map (tokyoRow p.1)))).isEmpty = false := by
      cases hfr : companies.filterMap
          (fun p => (fetch p.2).map (fun rs => rs.map (tokyoRow p.1))) with
      | nil => rw [hfr] at hmem; cases hmem
      | cons a l => rfl
    refine ⟨⟨tokyoHeader, (companies.filterMap
        (fun p => (fetch p.2).map (fun rs => rs.map (tokyoRow p.1)))).flatten⟩, ?_, ?_⟩
    · show (if (companies.filterMap
          (fun p => (fetch p.2).map (fun rs => rs.map (tokyoRow p.1)))).isEmpty
          then (Except.error LoadErr.concat)
          else Except.ok (Frame.mk tokyoHeader _)) = Except.ok _
      rw [hne]
      rfl
    · intro r hr
      show tokyoRow nA r ∈ List.flatten _
      exact List.mem_flatten.mpr
        ⟨rsA.map (tokyoRow nA), hmem, List.mem_map_of_mem _ hr⟩

/-- A concrete daily bar used by witnesses. -/
def wBar : RawRow := ⟨⟨⟨2024, 1, 5⟩, 0⟩, 10, 20, 5, 12, 100⟩

/-- A fetch where only SONY's ticker succeeds (with one bar). -/
def wFetch : String → Option (List RawRow) :=
  fun t => if t = "6758.T" then some [wBar] else none

/-- Witness for C4: SONY succeeds, TOYOTA fails. -/
theorem c4_fetch_isolation_witness :
    failMsg "TOYOTA" ∈ (load_tokyo_data wFetch).1 ∧
    ∃ df, (load_tokyo_data wFetch).2 = .ok df ∧
      ∀ r ∈ [wBar], tokyoRow "SONY" r ∈ df.rows :=
  c4_fetch_isolation wFetch "SONY" "6758.T" [wBar] "TOYOTA" "7203.T"
    (by decide) (by decide) (by decide) (by decide)

/-- C1 (amended): every row of a Dataset assembled by `load_tokyo_data`
satisfies `Price_change = Close - Open` and `High_Low_Spread = High - Low`.
(The original claim extended this to uploaded Datasets; the upload branch
performs no such enrichment — see the counterexample.) -/
theorem c1_remote_enrichment (fetch : String → Option (List RawRow))
    (ws : List String) (df : Frame)
    (h : load_tokyo_data fetch = (ws, .ok df)) :
    ∀ row ∈ df.rows, ∃ o hi lo c : Int,
      colCell df.header "Open" row = some (.i o) ∧
      colCell df.header "High" row = some (.i hi) ∧
      colCell df.header "Low" row = some (.i lo) ∧
      colCell df.header "Close" row = some (.i c) ∧
      colCell df.header "Price_change" row = some (.i (c - o)) ∧
      colCell df.header "High_Low_Spread" row = some (.i (hi - lo)) := by
  have h2 : (load_tokyo_data fetch).2 = .ok df := by rw [h]
  simp only [load_tokyo_data] at h2
  split at h2
  · cases h2
  · have hdf : Frame.mk tokyoHeader _ = df := Except.ok.inj h2
    subst hdf
    intro row hrow
    obtain ⟨fr, hfr, hrowfr⟩ := List.mem_flatten.mp hrow
    obtain ⟨p, _, hsome⟩ := List.mem_filterMap.mp hfr
    cases hfp : fetch p.2 with
    | none => rw [hfp] at hsome; cases hsome
    | some rs =>
      rw [hfp] at hsome
      have heq : rs.map (tokyoRow p.1) = fr := Option.some.inj hsome
      rw [← heq] at hrowfr
      obtain ⟨r, _, hreq⟩ := List.mem_map.mp hrowfr
      subst hreq
      exact ⟨r.opn, r.high, r.low, r.close, rfl, rfl, rfl, rfl, rfl, rfl⟩

/-- Witness for C1: the single enriched SONY row of the `wFetch` load. -/
theorem c1_remote_enrichment_witness :
    ∃ o hi lo c : Int,
      colCell (Frame.mk tokyoHeader [tokyoRow "SONY" wBar]).header "Open"
        (tokyoRow "SONY" wBar) = some (.i o) ∧
      colCell (Frame.mk tokyoHeader [tokyoRow "SONY" wBar]).header "High"
        (tokyoRow "SONY" wBar) = some (.i hi) ∧
      colCell (Frame.mk tokyoHeader [tokyoRow "SONY" wBar]).header "Low"
        (tokyoRow "SONY" wBar) = some (.i lo) ∧
      colCell (Frame.mk tokyoHeader [tokyoRow "SONY" wBar]).header "Close"
        (tokyoRow "SONY" wBar) = some (.i c) ∧
      colCell (Frame.mk tokyoHeader [tokyoRow "SONY" wBar]).header
        "Price_change" (tokyoRow "SONY" wBar) = some (.i (c - o)) ∧
      colCell (Frame.mk tokyoHeader [tokyoRow "SONY" wBar]).header
        "High_Low_Spread" (tokyoRow "SONY" wBar) = some (.i (hi - lo)) :=
  c1_remote_enrichment wFetch
    ["Failed to load TOYOTA", "Failed to load HONDA",
     "Failed to load MITSUBISHI CORP", "Failed to load NISSAN MOTOR CORP",
     "Failed to load NIPPON STEEL CORP", "Failed to load HITACHI",
     "Failed to load NINTENDO", "Failed to load FUJITSU",
     "Failed to load JAPAN AIRLINES"]
    ⟨tokyoHeader, [tokyoRow "SONY" wBar]⟩ (by rfl)
    (tokyoRow "SONY" wBar) (by decide)

/-- An uploaded CSV whose `Price_change` column disagrees with
`Close - Open` (999 versus 12 - 10). -/
def c1Csv : String :=
  "Date,Open,High,Low,Close,Volume,Symbol,Price_change,High_Low_Spread\n2024-01-05,10,20,5,12,100,ACME,999,999\n"

/-- The row of `c1Csv` as the pipeline holds it after loading/filtering. -/
def c1Row : List Cell :=
  [.t ⟨⟨2024, 1, 5⟩, 0⟩, .i 10, .i 20, .i 5, .i 12, .i 100,
   .s "ACME", .i 999, .i 999]

/-- The filtered Dataset the pipeline produces from `c1Csv`. -/
def c1Df : Frame :=
  ⟨["Date", "Open", "High", "Low", "Close", "Volume", "Symbol",
    "Price_change", "High_Low_Spread"], [c1Row]⟩

/-- C1 counterexample: the upload branch (eros.py lines 87-95) performs no
enrichment, so an uploaded Dataset can carry `Price_change` values that
violate `price_change = close - open`; the pipeline completes with the
violating row intact. -/
theorem c1_counterexample :
    script .upload (fun _ => none) (some c1Csv) pickFirst
        ⟨2024, 1, 1⟩ ⟨2024, 12, 31⟩ =
      .completed c1Df (convert_df_to_csv c1Df) [] ∧
    c1Df.rows = [c1Row] ∧
    colCell c1Df.header "Open" c1Row = some (.i 10) ∧
    colCell c1Df.header "Close" c1Row = some (.i 12) ∧
    colCell c1Df.header "Price_change" c1Row = some (.i 999) ∧
    (999 : Int) ≠ 12 - 10 :=
  ⟨by rfl, rfl, rfl, rfl, rfl, by decide⟩

/-! ### Claim C3 (no input is fatal) -/

/-- C3 counterexample: when every per-symbol fetch raises, `pd.concat`
receives an empty list and raises an unhandled `ValueError`: the run is
fatal, contradicting the claim (which explicitly includes this case). -/
theorem c3_counterexample :
    script .tokyo (fun _ => none) none pickFirst ⟨2024, 1, 1⟩ ⟨2024, 12, 31⟩ =
      .failed .concat (companies.map (fun p => failMsg p.1)) ∧
    ¬ nonFatal (script .tokyo (fun _ => none) none pickFirst
        ⟨2024, 1, 1⟩ ⟨2024, 12, 31⟩) := by
  have h : script .tokyo (fun _ => none) none pickFirst ⟨2024, 1, 1⟩ ⟨2024, 12, 31⟩ =
      .failed .concat (companies.map (fun p => failMsg p.1)) := by decide
  refine ⟨h, ?_⟩
  intro hc
  rw [h] at hc
  exact hc

theorem hdrIdx_lt {l : List String} {nm : String} {j : Nat}
    (h : hdrIdx l nm = some j) : j < l.length := by
  induction l generalizing j with
  | nil => cases h
  | cons a t ih =>
    unfold hdrIdx at h
    by_cases ha : a = nm
    · rw [if_pos ha] at h
      cases h
      simp
    · rw [if_neg ha] at h
      cases ht : hdrIdx t nm with
      | none => rw [ht] at h; cases h
      | some k =>
        rw [ht] at h
        have hk := ih ht
        have : k + 1 = j := Option.some.inj h
        simp only [List.length_cons]
        omega

theorem colCell_eq {hdr : List String} {nm : String} {row : List Cell} {c : Cell}
    (h : colCell hdr nm row = some c) :
    ∃ j, hdrIdx hdr nm = some j ∧ row[j]? = some c := by
  unfold colCell at h
  cases hj : hdrIdx hdr nm with
  | none => rw [hj] at h; cases h
  | some j => rw [hj] at h; exact ⟨j, rfl, h⟩

theorem colCell_of_idx {hdr : List String} {nm : String} {row : List Cell}
    {c : Cell} {j : Nat}
    (hj : hdrIdx hdr nm = some j) (h : row[j]? = some c) :
    colCell hdr nm row = some c := by
  unfold colCell
  rw [hj]
  exact h

theorem mem_uniqueCells_aux (l : List Cell) :
    ∀ (acc : List Cell) (a : Cell),
      (a ∈ l.foldl (fun acc c => if c ∈ acc then acc else acc ++ [c]) acc ↔
        a ∈ acc ∨ a ∈ l) := by
  induction l with
  | nil => simp
  | cons c t ih =>
    intro acc a
    simp only [List.foldl_cons]
    rw [ih]
    by_cases hc : c ∈ acc
    · rw [if_pos hc]
      constructor
      · rintro (h | h)
        · exact Or.inl h
        · exact Or.inr (List.mem_cons_of_mem _ h)
      · rintro (h | h)
        · exact Or.inl h
        · rcases List.mem_cons.mp h with rfl | h
          · exact Or.inl hc
          · exact Or.inr h
    · rw [if_neg hc]
      constructor
      · rintro (h | h)
        · rcases List.mem_append.mp h with h | h
          · exact Or.inl h
          · rcases List.mem_singleton.mp h with rfl
            exact Or.inr (List.mem_cons_self _ _)
        · exact Or.inr (List.mem_cons_of_mem _ h)
      · rintro (h | h)
        · exact Or.inl (List.mem_append.mpr (Or.inl h))
        · rcases List.mem_cons.mp h with rfl | h
          · exact Or.inl (List.mem_append.mpr (Or.inr (List.mem_singleton.mpr rfl)))
          · exact Or.inr h

theorem mem_uniqueCells {l : List Cell} {a : Cell} :
    a ∈ uniqueCells l ↔ a ∈ l := by
  unfold uniqueCells
  rw [mem_uniqueCells_aux]
  simp

theorem extractTs_some {j : Nat} {rows : List (List Cell)}
    (h : ∀ r ∈ rows, ∃ ts, r[j]? = some (Cell.t ts)) :
    ∃ l, extractTs j rows = some l ∧ l.length = rows.length := by
  induction rows with
  | nil => exact ⟨[], rfl, rfl⟩
  | cons r rest ih =>
    obtain ⟨ts, hts⟩ := h r (List.mem_cons_self _ _)
    obtain ⟨l, hl, hlen⟩ := ih (fun r' hr' => h r' (List.mem_cons_of_mem _ hr'))
    refine ⟨ts :: l, ?_, by simp [hlen]⟩
    unfold extractTs
    rw [hts, hl]
    rfl

theorem dateMinMax_ok {f : Frame} {j : Nat}
    (hj : hdrIdx f.header "Date" = some j)
    (hne : f.rows ≠ [])
    (hall : ∀ r ∈ f.rows, ∃ ts, r[j]? = some (Cell.t ts)) :
    ∃ mm, dateMinMax f = .ok mm := by
  unfold dateMinMax
  obtain ⟨l, hl, hlen⟩ := extractTs_some hall
  simp only [hj, hl]
  cases l with
  | nil =>
    exfalso
    apply hne
    cases hr : f.rows with
    | nil => rfl
    | cons a t => rw [hr] at hlen; cases hlen
  | cons t ts => exact ⟨_, rfl⟩

/-- Sufficient conditions for the post-load pipeline stage to complete:
a nonempty Dataset whose `Date` cells are all timestamps, whose `Close`
cells are all numeric, and (when a `Symbol` column exists) whose rows all
carry a symbol cell; the selectbox returns one of its options. -/
theorem afterLoad_ok (pick : List Cell → Cell) (us ue : Dte)
    (df : Frame) (ws : List String)
    (hpick : ∀ l : List Cell, l ≠ [] → pick l ∈ l)
    (hne : df.rows ≠ [])
    (hdate : ∀ row ∈ df.rows, ∃ ts, colCell df.header "Date" row = some (.t ts))
    (hclose : ∀ row ∈ df.rows, ∃ k : Int, colCell df.header "Close" row = some (.i k))
    (hsym : "Symbol" ∈ df.header →
        ∀ row ∈ df.rows, ∃ c, colCell df.header "Symbol" row = some c) :
    ∃ g csv, afterLoad pick us ue df ws = .completed g csv ws := by
  obtain ⟨row0, rest, hrows⟩ : ∃ row0 rest, df.rows = row0 :: rest := by
    cases hr : df.rows with
    | nil => exact absurd hr hne
    | cons a t => exact ⟨a, t, rfl⟩
  have hrow0 : row0 ∈ df.rows := by rw [hrows]; exact List.mem_cons_self _ _
  obtain ⟨ts0, hts0⟩ := hdate row0 hrow0
  obtain ⟨jd, hjd, _⟩ := colCell_eq hts0
  obtain ⟨k0, hk0⟩ := hclose row0 hrow0
  obtain ⟨jc, hjc, _⟩ := colCell_eq hk0
  set df1 := if "Symbol" ∈ df.header then
    symbolFilter (pick (uniqueCells (colCells df "Symbol"))) df else df with hdf1
  have hhdr1 : df1.header = df.header := by
    rw [hdf1]
    split
    · exact symbolFilter_header _ _
    · rfl
  have hsub1 : ∀ r ∈ df1.rows, r ∈ df.rows := by
    intro r hr
    rw [hdf1] at hr
    by_cases hs : "Symbol" ∈ df.header
    · rw [if_pos hs] at hr
      exact (mem_symbolFilter_rows hs hr).1
    · rw [if_neg hs] at hr
      exact hr
  have hne1 : df1.rows ≠ [] := by
    by_cases hs : "Symbol" ∈ df.header
    · obtain ⟨js, hjs⟩ : ∃ js, hdrIdx df.header "Symbol" = some js := by
        obtain ⟨c0, hc0⟩ := hsym hs row0 hrow0
        obtain ⟨js, hjs, _⟩ := colCell_eq hc0
        exact ⟨js, hjs⟩
      have hcolCells : colCells df "Symbol" = df.rows.filterMap (fun r => r[js]?) := by
        unfold colCells
        rw [hjs]
      obtain ⟨c0, hc0⟩ := hsym hs row0 hrow0
      obtain ⟨js', hjs', hg0⟩ := colCell_eq hc0
      rw [hjs] at hjs'
      have hjseq : js = js' := Option.some.inj hjs'
      subst hjseq
      have hc0mem : c0 ∈ colCells df "Symbol" := by
        rw [hcolCells]
        exact List.mem_filterMap.mpr ⟨row0, hrow0, hg0⟩
      have huniq : c0 ∈ uniqueCells (colCells df "Symbol") := mem_uniqueCells.mpr hc0mem
      have hpicked := hpick _ (List.ne_nil_of_mem huniq)
      have hselmem : pick (uniqueCells (colCells df "Symbol")) ∈ colCells df "Symbol" :=
        mem_uniqueCells.mp hpicked
      rw [hcolCells] at hselmem
      obtain ⟨rowS, hrowS, hgS⟩ := List.mem_filterMap.mp hselmem
      rw [← hcolCells] at hgS
      have hrowS1 : rowS ∈ df1.rows := by
        rw [hdf1, if_pos hs]
        unfold symbolFilter
        rw [if_pos hs]
        exact List.mem_filter.mpr
          ⟨hrowS, decide_eq_true (colCell_of_idx hjs hgS)⟩
      exact List.ne_nil_of_mem hrowS1
    · rw [hdf1, if_neg hs]
      exact hne
  have hjd1 : hdrIdx df1.header "Date" = some jd := by rw [hhdr1]; exact hjd
  have hall1 : ∀ r ∈ df1.rows, ∃ ts, r[jd]? = some (Cell.t ts) := by
    intro r hr
    obtain ⟨ts, hts⟩ := hdate r (hsub1 r hr)
    obtain ⟨j', hj', hg⟩ := colCell_eq hts
    rw [hjd] at hj'
    have : jd = j' := Option.some.inj hj'
    subst this
    exact ⟨ts, hg⟩
  obtain ⟨mm, hmm⟩ := dateMinMax_ok hjd1 hne1 hall1
  have hclose2 : closeOk (dateFilter us ue df1) = true := by
    unfold closeOk
    have hidx : hdrIdx (dateFilter us ue df1).header "Close" = some jc := by
      show hdrIdx df1.header "Close" = some jc
      rw [hhdr1]
      exact hjc
    simp only [hidx]
    refine List.all_eq_true.mpr ?_
    intro r hr
    have hrdf : r ∈ df.rows := by
      have : r ∈ df1.rows := (List.mem_filter.mp hr).1
      exact hsub1 r this
    obtain ⟨k, hk⟩ := hclose r hrdf
    obtain ⟨j', hj', hg⟩ := colCell_eq hk
    rw [hjc] at hj'
    have : jc = j' := Option.some.inj hj'
    subst this
    simp only [hg]
  refine ⟨dateFilter us ue df1, convert_df_to_csv (dateFilter us ue df1), ?_⟩
  simp only [afterLoad]
  rw [← hdf1]
  simp only [hmm, hclose2, if_true]

/-- The selectbox default picks the head, which is an option. -/
theorem pickFirst_mem : ∀ l : List Cell, l ≠ [] → pickFirst l ∈ l := by
  intro l hl
  cases l with
  | nil => exact absurd rfl hl
  | cons a t => exact List.mem_cons_self a t

/-- The conditions under which an upload survives the whole pipeline:
nonempty, all `Date` cells timestamps (as the coercion leaves them when
it succeeds), all `Close` cells numeric, and full symbol cells when a
`Symbol` column exists. -/
def GoodDf (df : Frame) : Prop :=
  df.rows ≠ [] ∧
  (∀ row ∈ df.rows, ∃ ts, colCell df.header "Date" row = some (.t ts)) ∧
  (∀ row ∈ df.rows, ∃ k : Int, colCell df.header "Close" row = some (.i k)) ∧
  ("Symbol" ∈ df.header →
    ∀ row ∈ df.rows, ∃ c, colCell df.header "Symbol" row = some c)

theorem mem_tokyo_flatten {fetch : String → Option (List RawRow)} {row : List Cell}
    (h : row ∈ (companies.filterMap
      (fun p => (fetch p.2).map (fun rs => rs.map (tokyoRow p.1)))).flatten) :
    ∃ n r, row = tokyoRow n r := by
  obtain ⟨fr, hfr, hrow⟩ := List.mem_flatten.mp h
  obtain ⟨p, _, hsome⟩ := List.mem_filterMap.mp hfr
  cases hfp : fetch p.2 with
  | none => rw [hfp] at hsome; cases hsome
  | some rs =>
    rw [hfp] at hsome
    have heq := Option.some.inj hsome
    rw [← heq] at hrow
    obtain ⟨r, _, hreq⟩ := List.mem_map.mp hrow
    exact ⟨p.1, r, hreq.symm⟩

/-- C3 (amended): the pipeline never raises an unhandled exception
provided the inputs avoid the unguarded spots of the script: in remote
mode at least one symbol fetch succeeds with at least one bar (otherwise
`pd.concat([])` or `.date()`-on-`NaN` raises), and in upload mode the
file, when present, parses and yields a Dataset that is nonempty, has a
timestamp-coercible `Date` column and a numeric `Close` column (otherwise
`read_csv`, `pd.to_datetime`, the `df['Date']` lookup on line 106, or the
chart render raises). Under these conditions every run either halts
awaiting input or completes; per-symbol fetch failures only produce
warnings. -/
theorem c3_no_fatal (mode : Mode) (fetch : String → Option (List RawRow))
    (file : Option String) (pick : List Cell → Cell) (us ue : Dte)
    (hpick : ∀ l : List Cell, l ≠ [] → pick l ∈ l)
    (htokyo : mode = .tokyo →
        ∃ p ∈ companies, ∃ rs, fetch p.2 = some rs ∧ rs ≠ [])
    (hupload : ∀ s, mode = .upload → file = some s →
        ∃ df, readUpload s = some df ∧ GoodDf df) :
    nonFatal (script mode fetch file pick us ue) := by
  cases mode with
  | upload =>
    cases file with
    | none => exact trivial
    | some s =>
      obtain ⟨df, hdf, hgood⟩ := hupload s rfl rfl
      unfold readUpload at hdf
      cases hrc : readCsv s with
      | none => rw [hrc] at hdf; cases hdf
      | some df0 =>
        rw [hrc] at hdf
        have hco : coerceFrame df0 = some df := hdf
        obtain ⟨g, csv, heq⟩ := afterLoad_ok pick us ue df []
          hpick hgood.1 hgood.2.1 hgood.2.2.1 hgood.2.2.2
        simp only [script, hrc, hco, heq]
        exact trivial
  | tokyo =>
    obtain ⟨p, hp, rs, hfp, hrs⟩ := htokyo rfl
    have hmem : rs.map (tokyoRow p.1) ∈ companies.filterMap
        (fun q => (fetch q.2).map (fun rr => rr.map (tokyoRow q.1))) :=
      List.mem_filterMap.mpr ⟨p, hp, by rw [hfp]; rfl⟩
    have hne : (companies.filterMap
        (fun q => (fetch q.2).map (fun rr => rr.map (tokyoRow q.1)))).isEmpty = false := by
      cases hfr : companies.filterMap
          (fun q => (fetch q.2).map (fun rr => rr.map (tokyoRow q.1))) with
      | nil => rw [hfr] at hmem; cases hmem
      | cons a l => rfl
    obtain ⟨r0, hr0⟩ : ∃ r0, r0 ∈ rs := List.exists_mem_of_ne_nil rs hrs
    have hrowmem : tokyoRow p.1 r0 ∈ (companies.filterMap
        (fun q => (fetch q.2).map (fun rr => rr.map (tokyoRow q.1)))).flatten :=
      List.mem_flatten.mpr ⟨rs.map (tokyoRow p.1), hmem, List.mem_map_of_mem _ hr0⟩
    obtain ⟨g, csv, heq⟩ := afterLoad_ok pick us ue
      ⟨tokyoHeader, (companies.filterMap
        (fun q => (fetch q.2).map (fun rr => rr.map (tokyoRow q.1)))).flatten⟩
      (companies.filterMap
        (fun q => if (fetch q.2).isNone then some (failMsg q.1) else none))
      hpick
      (List.ne_nil_of_mem hrowmem)
      (by
        intro row hrow
        obtain ⟨n, r, hreq⟩ := mem_tokyo_flatten hrow
        subst hreq
        exact ⟨r.date, rfl⟩)
      (by
        intro row hrow
        obtain ⟨n, r, hreq⟩ := mem_tokyo_flatten hrow
        subst hreq
        exact ⟨r.close, rfl⟩)
      (by
        intro _ row hrow
        obtain ⟨n, r, hreq⟩ := mem_tokyo_flatten hrow
        subst hreq
        exact ⟨.s n, rfl⟩)
    simp only [script, load_tokyo_data, hne, Bool.false_eq_true, if_false, heq]
    exact trivial

/-- Witness for C3 (amended), in remote mode with one succeeding symbol. -/
theorem c3_no_fatal_witness :
    (∀ l : List Cell, l ≠ [] → pickFirst l ∈ l) ∧
    (Mode.tokyo = Mode.tokyo →
      ∃ p ∈ companies, ∃ rs, wFetch p.2 = some rs ∧ rs ≠ []) ∧
    (∀ s, Mode.tokyo = Mode.upload → (none : Option String) = some s →
      ∃ df, readUpload s = some df ∧ GoodDf df) ∧
    nonFatal (script .tokyo wFetch none pickFirst ⟨2024, 1, 1⟩ ⟨2024, 12, 31⟩) :=
  ⟨pickFirst_mem,
   fun _ => ⟨("SONY", "6758.T"), by decide, [wBar], by decide, by decide⟩,
   fun _ h _ => Mode.noConfusion h,
   c3_no_fatal .tokyo wFetch none pickFirst ⟨2024, 1, 1⟩ ⟨2024, 12, 31⟩
     pickFirst_mem
     (fun _ => ⟨("SONY", "6758.T"), by decide, [wBar], by decide, by decide⟩)
     (fun _ h _ => Mode.noConfusion h)⟩

/-! ### Claim C2: CSV round trip. Splitting and joining lemmas. -/

theorem splitSep_ne_nil (sep : Char) (l : List Char) : splitSep sep l ≠ [] := by
  cases l with
  | nil => simp [splitSep]
  | cons c rest =>
    unfold splitSep
    cases h : splitSep sep rest with
    | nil => simp
    | cons g gs =>
      simp only [h]
      split <;> simp

theorem splitSep_sep_cons (sep : Char) (l : List Char) :
    splitSep sep (sep :: l) = [] :: splitSep sep l := by
  cases h : splitSep sep l with
  | nil => exact absurd h (splitSep_ne_nil sep l)
  | cons g gs =>
    unfold splitSep
    simp only [h]
    simp

theorem splitSep_cons_ne (sep c : Char) (l : List Char) (h : c ≠ sep)
    {g : List Char} {gs : List (List Char)} (hl : splitSep sep l = g :: gs) :
    splitSep sep (c :: l) = (c :: g) :: gs := by
  unfold splitSep
  simp only [hl]
  rw [if_neg h]

theorem splitSep_no_sep {sep : Char} {l : List Char} (h : sep ∉ l) :
    splitSep sep l = [l] := by
  induction l with
  | nil => rfl
  | cons c rest ih =>
    have hc : c ≠ sep := fun he => h (he ▸ List.mem_cons_self _ _)
    have hr : sep ∉ rest := fun hm => h (List.mem_cons_of_mem _ hm)
    exact splitSep_cons_ne sep c rest hc (ih hr)

theorem splitSep_append {sep : Char} {a rest : List Char} (h : sep ∉ a) :
    splitSep sep (a ++ sep :: rest) = a :: splitSep sep rest := by
  induction a with
  | nil => simpa using splitSep_sep_cons sep rest
  | cons c a' ih =>
    have hc : c ≠ sep := fun he => h (he ▸ List.mem_cons_self _ _)
    have ha' : sep ∉ a' := fun hm => h (List.mem_cons_of_mem _ hm)
    exact splitSep_cons_ne sep c _ hc (ih ha')

theorem mem_cellsJoin {x : Char} :
    ∀ {cs : List (List Char)}, x ∈ cellsJoin cs → x = ',' ∨ ∃ c ∈ cs, x ∈ c := by
  intro cs
  induction cs with
  | nil => intro h; cases h
  | cons c cs' ih =>
    cases cs' with
    | nil =>
      intro h
      exact Or.inr ⟨c, List.mem_cons_self _ _, h⟩
    | cons d ds =>
      intro h
      have h2 : x ∈ c ++ ',' :: cellsJoin (d :: ds) := h
      rcases List.mem_append.mp h2 with h3 | h3
      · exact Or.inr ⟨c, List.mem_cons_self _ _, h3⟩
      · rcases List.mem_cons.mp h3 with h4 | h4
        · exact Or.inl h4
        · rcases ih h4 with h5 | ⟨e, he, hx⟩
          · exact Or.inl h5
          · exact Or.inr ⟨e, List.mem_cons_of_mem _ he, hx⟩

theorem cellsJoin_ne_nil {cs : List (List Char)} (hne : cs ≠ [])
    (h1 : ∀ c ∈ cs, c ≠ []) : cellsJoin cs ≠ [] := by
  cases cs with
  | nil => exact absurd rfl hne
  | cons c cs' =>
    cases cs' with
    | nil => exact h1 c (List.mem_cons_self _ _)
    | cons d ds =>
      show c ++ ',' :: cellsJoin (d :: ds) ≠ []
      cases hc : c with
      | nil => simp
      | cons a t => simp

theorem splitSep_cellsJoin :
    ∀ {cs : List (List Char)}, cs ≠ [] → (∀ c ∈ cs, ',' ∉ c) →
      splitSep ',' (cellsJoin cs) = cs := by
  intro cs
  induction cs with
  | nil => intro h _; exact absurd rfl h
  | cons c cs' ih =>
    intro _ hfree
    cases cs' with
    | nil => exact splitSep_no_sep (hfree c (List.mem_cons_self _ _))
    | cons d ds =>
      have hc : ',' ∉ c := hfree c (List.mem_cons_self _ _)
      have hrec : splitSep ',' (cellsJoin (d :: ds)) = d :: ds :=
        ih (by simp) (fun e he => hfree e (List.mem_cons_of_mem _ he))
      show splitSep ',' (c ++ ',' :: cellsJoin (d :: ds)) = c :: d :: ds
      rw [splitSep_append hc, hrec]

theorem linesJoin_cons (l : List Char) (ls : List (List Char)) :
    linesJoin (l :: ls) = l ++ '\n' :: linesJoin ls := by
  show ((l ++ ['\n']) :: ls.map (· ++ ['\n'])).flatten = _
  rw [List.flatten_cons, List.append_assoc]
  rfl

theorem splitFilter_linesJoin :
    ∀ {ls : List (List Char)}, (∀ l ∈ ls, '\n' ∉ l ∧ l ≠ []) →
      (splitSep '\n' (linesJoin ls)).filter (fun l => !l.isEmpty) = ls := by
  intro ls
  induction ls with
  | nil => intro _; rfl
  | cons l ls' ih =>
    intro h
    have hl := h l (List.mem_cons_self _ _)
    rw [linesJoin_cons, splitSep_append hl.1, List.filter_cons]
    have hemp : (!l.isEmpty) = true := by
      cases l with
      | nil => exact absurd rfl hl.2
      | cons a t => rfl
    rw [if_pos hemp, ih (fun e he => h e (List.mem_cons_of_mem _ he))]

/-! ### Decimal rendering round-trip lemmas -/

theorem digitChar_mod (d : Nat) : digitChar (d % 10) = digitChar d := by
  unfold digitChar
  have h : d % 10 % 10 = d % 10 := by omega
  rw [h]

theorem digitChar_isDigit (d : Nat) : (digitChar d).isDigit = true := by
  rw [← digitChar_mod]
  generalize hk : d % 10 = k
  have hlt : k < 10 := by omega
  interval_cases k <;> decide

theorem digitChar_toNat (d : Nat) : (digitChar d).toNat = 48 + d % 10 := by
  rw [← digitChar_mod]
  generalize hk : d % 10 = k
  have hlt : k < 10 := by omega
  interval_cases k <;> decide

theorem parseNatChars_append (l : List Char) (c : Char) :
    parseNatChars (l ++ [c]) = 10 * parseNatChars l + (c.toNat - 48) := by
  unfold parseNatChars
  rw [List.foldl_append]
  rfl

theorem mem_natDigitsAux {c : Char} :
    ∀ {fuel n : Nat}, c ∈ natDigitsAux fuel n → ∃ d, c = digitChar d := by
  intro fuel
  induction fuel with
  | zero => intro n h; cases h
  | succ f ih =>
    intro n h
    cases n with
    | zero => cases h
    | succ m =>
      rw [show natDigitsAux (f + 1) (m + 1) =
        natDigitsAux f ((m + 1) / 10) ++ [digitChar ((m + 1) % 10)] from rfl] at h
      rcases List.mem_append.mp h with h2 | h2
      · exact ih h2
      · exact ⟨(m + 1) % 10, List.mem_singleton.mp h2⟩

theorem parse_natDigitsAux :
    ∀ (fuel n : Nat), n ≤ fuel → parseNatChars (natDigitsAux fuel n) = n := by
  intro fuel
  induction fuel with
  | zero =>
    intro n h
    have : n = 0 := Nat.le_zero.mp h
    subst this
    rfl
  | succ f ih =>
    intro n h
    cases n with
    | zero => rfl
    | succ m =>
      have hdiv : (m + 1) / 10 ≤ f := by
        have h1 : (m + 1) / 10 < m + 1 := Nat.div_lt_self (Nat.succ_pos m) (by norm_num)
        omega
      show parseNatChars (natDigitsAux f ((m + 1) / 10) ++ [digitChar ((m + 1) % 10)]) = m + 1
      rw [parseNatChars_append, ih _ hdiv, digitChar_toNat]
      omega

theorem parse_renderNat (n : Nat) : parseNatChars (renderNat n) = n := by
  unfold renderNat
  split
  · rename_i h
    rw [h]
    rfl
  · exact parse_natDigitsAux n n (le_refl n)

theorem mem_renderNat {c : Char} {n : Nat} (h : c ∈ renderNat n) :
    ∃ d, c = digitChar d := by
  unfold renderNat at h
  split at h
  · exact ⟨0, by rw [List.mem_singleton.mp h]; rfl⟩
  · exact mem_natDigitsAux h

theorem renderNat_ne_nil (n : Nat) : renderNat n ≠ [] := by
  unfold renderNat
  split
  · simp
  · rename_i h
    cases hn : n with
    | zero => exact absurd hn h
    | succ m => simp [natDigitsAux]

theorem isDigit_renderNat_all (n : Nat) : (renderNat n).all Char.isDigit = true := by
  refine List.all_eq_true.mpr ?_
  intro c hc
  obtain ⟨d, rfl⟩ := mem_renderNat hc
  exact digitChar_isDigit d

theorem parse_padNat (w n : Nat) : parseNatChars (padNat w n) = n := by
  unfold padNat parseNatChars
  rw [List.foldl_append]
  have hz : ∀ k, List.foldl (fun a c => 10 * a + (c.toNat - 48)) 0
      (List.replicate k '0') = 0 := by
    intro k
    induction k with
    | zero => rfl
    | succ k ih =>
      rw [List.replicate_succ, List.foldl_cons]
      exact ih
  rw [hz]
  exact parse_renderNat n

theorem mem_padNat {c : Char} {w n : Nat} (h : c ∈ padNat w n) :
    ∃ d, c = digitChar d := by
  unfold padNat at h
  rcases List.mem_append.mp h with h2 | h2
  · exact ⟨0, by rw [List.eq_of_mem_replicate h2]; rfl⟩
  · exact mem_renderNat h2

theorem padNat_ne_nil (w n : Nat) : padNat w n ≠ [] := by
  unfold padNat
  intro h
  exact renderNat_ne_nil n (List.append_eq_nil.mp h).2

theorem isDigit_padNat_all (w n : Nat) : (padNat w n).all Char.isDigit = true := by
  refine List.all_eq_true.mpr ?_
  intro c hc
  obtain ⟨d, rfl⟩ := mem_padNat hc
  exact digitChar_isDigit d

/-! ### Integer rendering round-trip lemmas -/

theorem isDigit_ne_minus {c : Char} (h : c.isDigit = true) : c ≠ '-' :=
  fun he => by subst he; exact absurd h (by decide)

theorem isIntStr_intChars (k : Int) : isIntStr (intChars k) = true := by
  cases k with
  | ofNat n =>
    show isIntStr (renderNat n) = true
    cases hr : renderNat n with
    | nil => exact absurd hr (renderNat_ne_nil n)
    | cons c rest =>
      have hcd : c.isDigit = true := by
        have hm : c ∈ renderNat n := by rw [hr]; exact List.mem_cons_self _ _
        obtain ⟨d, rfl⟩ := mem_renderNat hm
        exact digitChar_isDigit d
      show (if c = '-' then (!rest.isEmpty && rest.all Char.isDigit)
            else (c :: rest).all Char.isDigit) = true
      rw [if_neg (isDigit_ne_minus hcd), ← hr]
      exact isDigit_renderNat_all n
  | negSucc n =>
    show isIntStr ('-' :: renderNat (n + 1)) = true
    show (if ('-' : Char) = '-' then
        (!(renderNat (n + 1)).isEmpty && (renderNat (n + 1)).all Char.isDigit)
      else ('-' :: renderNat (n + 1)).all Char.isDigit) = true
    rw [if_pos rfl]
    have h2 : (renderNat (n + 1)).isEmpty = false :=
      List.isEmpty_eq_false.mpr (renderNat_ne_nil (n + 1))
    rw [h2, isDigit_renderNat_all (n + 1)]
    rfl

theorem parseIntChars_intChars (k : Int) : parseIntChars (intChars k) = k := by
  cases k with
  | ofNat n =>
    show parseIntChars (renderNat n) = Int.ofNat n
    cases hr : renderNat n with
    | nil => exact absurd hr (renderNat_ne_nil n)
    | cons c rest =>
      have hcd : c.isDigit = true := by
        have hm : c ∈ renderNat n := by rw [hr]; exact List.mem_cons_self _ _
        obtain ⟨d, rfl⟩ := mem_renderNat hm
        exact digitChar_isDigit d
      show (if c = '-' then -(parseNatChars rest : Int)
            else (parseNatChars (c :: rest) : Int)) = Int.ofNat n
      rw [if_neg (isDigit_ne_minus hcd), ← hr, parse_renderNat]
      rfl
  | negSucc n =>
    show parseIntChars ('-' :: renderNat (n + 1)) = Int.negSucc n
    show (if ('-' : Char) = '-' then -(parseNatChars (renderNat (n + 1)) : Int)
          else (parseNatChars ('-' :: renderNat (n + 1)) : Int)) = Int.negSucc n
    rw [if_pos rfl, parse_renderNat]
    simp [Int.negSucc_eq]

theorem mem_intChars {c : Char} {k : Int} (h : c ∈ intChars k) :
    c.isDigit = true ∨ c = '-' := by
  cases k with
  | ofNat n =>
    obtain ⟨d, rfl⟩ := mem_renderNat h
    exact Or.inl (digitChar_isDigit d)
  | negSucc n =>
    rcases List.mem_cons.mp h with h2 | h2
    · exact Or.inr h2
    · obtain ⟨d, rfl⟩ := mem_renderNat h2
      exact Or.inl (digitChar_isDigit d)

theorem intChars_ne_nil (k : Int) : intChars k ≠ [] := by
  cases k with
  | ofNat n => exact renderNat_ne_nil n
  | negSucc n => simp [intChars]

/-! ### Timestamp rendering round-trip lemmas -/

theorem not_mem_padNat_of_not_digit {c : Char} (hc : c.isDigit = false)
    (w n : Nat) : c ∉ padNat w n := by
  intro h
  obtain ⟨d, hd⟩ := mem_padNat h
  have h2 := digitChar_isDigit d
  rw [← hd] at h2
  rw [h2] at hc
  cases hc

theorem digitsTok_padNat (w n : Nat) : digitsTok (padNat w n) = true := by
  unfold digitsTok
  rw [List.isEmpty_eq_false.mpr (padNat_ne_nil w n), isDigit_padNat_all]
  rfl

theorem parseDate_dateChars (d : Dte) : parseDateChars (dateChars d) = some d := by
  unfold parseDateChars dateChars
  rw [splitSep_append (not_mem_padNat_of_not_digit (by decide) 4 d.y),
      splitSep_append (not_mem_padNat_of_not_digit (by decide) 2 d.m),
      splitSep_no_sep (not_mem_padNat_of_not_digit (by decide) 2 d.d)]
  show (if digitsTok (padNat 4 d.y) && digitsTok (padNat 2 d.m) &&
          digitsTok (padNat 2 d.d) then
        some ⟨parseNatChars (padNat 4 d.y), parseNatChars (padNat 2 d.m),
          parseNatChars (padNat 2 d.d)⟩
      else none) = some d
  rw [digitsTok_padNat, digitsTok_padNat, digitsTok_padNat,
      parse_padNat, parse_padNat, parse_padNat]
  rfl

theorem parseTime_timeChars (s : Nat) : parseTimeChars (timeChars s) = some s := by
  unfold parseTimeChars timeChars
  rw [splitSep_append (not_mem_padNat_of_not_digit (by decide) 2 (s / 3600)),
      splitSep_append (not_mem_padNat_of_not_digit (by decide) 2 (s % 3600 / 60)),
      splitSep_no_sep (not_mem_padNat_of_not_digit (by decide) 2 (s % 60))]
  show (if digitsTok (padNat 2 (s / 3600)) && digitsTok (padNat 2 (s % 3600 / 60)) &&
          digitsTok (padNat 2 (s % 60)) then
        some (parseNatChars (padNat 2 (s / 3600)) * 3600 +
          parseNatChars (padNat 2 (s % 3600 / 60)) * 60 +
          parseNatChars (padNat 2 (s % 60)))
      else none) = some s
  rw [digitsTok_padNat, digitsTok_padNat, digitsTok_padNat,
      parse_padNat, parse_padNat, parse_padNat]
  have harith : s / 3600 * 3600 + s % 3600 / 60 * 60 + s % 60 = s := by omega
  rw [harith]
  rfl

theorem mem_dateChars {c : Char} {d : Dte} (h : c ∈ dateChars d) :
    c.isDigit = true ∨ c = '-' := by
  unfold dateChars at h
  rcases List.mem_append.mp h with h2 | h2
  · obtain ⟨k, rfl⟩ := mem_padNat h2
    exact Or.inl (digitChar_isDigit k)
  · rcases List.mem_cons.mp h2 with h3 | h3
    · exact Or.inr h3
    · rcases List.mem_append.mp h3 with h4 | h4
      · obtain ⟨k, rfl⟩ := mem_padNat h4
        exact Or.inl (digitChar_isDigit k)
      · rcases List.mem_cons.mp h4 with h5 | h5
        · exact Or.inr h5
        · obtain ⟨k, rfl⟩ := mem_padNat h5
          exact Or.inl (digitChar_isDigit k)

theorem mem_timeChars {c : Char} {s : Nat} (h : c ∈ timeChars s) :
    c.isDigit = true ∨ c = ':' := by
  unfold timeChars at h
  rcases List.mem_append.mp h with h2 | h2
  · obtain ⟨k, rfl⟩ := mem_padNat h2
    exact Or.inl (digitChar_isDigit k)
  · rcases List.mem_cons.mp h2 with h3 | h3
    · exact Or.inr h3
    · rcases List.mem_append.mp h3 with h4 | h4
      · obtain ⟨k, rfl⟩ := mem_padNat h4
        exact Or.inl (digitChar_isDigit k)
      · rcases List.mem_cons.mp h4 with h5 | h5
        · exact Or.inr h5
        · obtain ⟨k, rfl⟩ := mem_padNat h5
          exact Or.inl (digitChar_isDigit k)

theorem mem_tsChars {c : Char} {ts : Timestamp} (h : c ∈ tsChars ts) :
    c.isDigit = true ∨ c = '-' ∨ c = ' ' ∨ c = ':' := by
  unfold tsChars at h
  rcases List.mem_append.mp h with h2 | h2
  · rcases mem_dateChars h2 with h3 | h3
    · exact Or.inl h3
    · exact Or.inr (Or.inl h3)
  · split at h2
    · cases h2
    · rcases List.mem_cons.mp h2 with h3 | h3
      · exact Or.inr (Or.inr (Or.inl h3))
      · rcases mem_timeChars h3 with h4 | h4
        · exact Or.inl h4
        · exact Or.inr (Or.inr (Or.inr h4))

theorem space_not_mem_dateChars {d : Dte} : ' ' ∉ dateChars d := by
  intro h
  rcases mem_dateChars h with h2 | h2
  · exact absurd h2 (by decide)
  · exact absurd h2 (by decide)

theorem space_not_mem_timeChars {s : Nat} : ' ' ∉ timeChars s := by
  intro h
  rcases mem_timeChars h with h2 | h2
  · exact absurd h2 (by decide)
  · exact absurd h2 (by decide)

theorem dateChars_ne_nil (d : Dte) : dateChars d ≠ [] := by
  unfold dateChars
  intro h
  exact padNat_ne_nil 4 d.y (List.append_eq_nil.mp h).1

theorem tsChars_ne_nil (ts : Timestamp) : tsChars ts ≠ [] := by
  unfold tsChars
  intro h
  exact dateChars_ne_nil _ (List.append_eq_nil.mp h).1

theorem minus_mem_dateChars (d : Dte) : '-' ∈ dateChars d := by
  unfold dateChars
  exact List.mem_append.mpr (Or.inr (List.mem_cons_self _ _))

theorem parseTs_tsChars (ts : Timestamp) : parseTsChars (tsChars ts) = some ts := by
  obtain ⟨d, s⟩ := ts
  unfold parseTsChars tsChars
  by_cases hsec : s = 0
  · subst hsec
    rw [if_pos rfl, List.append_nil, splitSep_no_sep space_not_mem_dateChars]
    show (parseDateChars (dateChars d)).map
      (fun dd => (⟨dd, 0⟩ : Timestamp)) = some ⟨d, 0⟩
    rw [parseDate_dateChars]
    rfl
  · rw [if_neg hsec, splitSep_append space_not_mem_dateChars,
        splitSep_no_sep space_not_mem_timeChars]
    show (match parseDateChars (dateChars d), parseTimeChars (timeChars s) with
          | some dd, some tt => some (⟨dd, tt⟩ : Timestamp)
          | _, _ => none) = some ⟨d, s⟩
    rw [parseDate_dateChars, parseTime_timeChars]

theorem isIntStr_false_head_digit {c : Char} {rest : List Char}
    (hcd : c.isDigit = true) {x : Char} (hx : x ∈ c :: rest)
    (hxd : x.isDigit = false) : isIntStr (c :: rest) = false := by
  show (if c = '-' then (!rest.isEmpty && rest.all Char.isDigit)
        else (c :: rest).all Char.isDigit) = false
  rw [if_neg (isDigit_ne_minus hcd)]
  exact List.all_eq_false.mpr ⟨x, hx, fun h => by rw [hxd] at h; cases h⟩

theorem isIntStr_tsChars (ts : Timestamp) : isIntStr (tsChars ts) = false := by
  obtain ⟨p, ps, hp⟩ : ∃ p ps, padNat 4 ts.date.y = p :: ps := by
    cases h : padNat 4 ts.date.y with
    | nil => exact absurd h (padNat_ne_nil _ _)
    | cons a t => exact ⟨a, t, rfl⟩
  have hpd : p.isDigit = true := by
    have hm : p ∈ padNat 4 ts.date.y := by rw [hp]; exact List.mem_cons_self _ _
    obtain ⟨k, rfl⟩ := mem_padNat hm
    exact digitChar_isDigit k
  have hminus : '-' ∈ tsChars ts := by
    unfold tsChars
    exact List.mem_append.mpr (Or.inl (minus_mem_dateChars _))
  have hts : tsChars ts = p :: (ps ++ '-' ::
      (padNat 2 ts.date.m ++ '-' :: padNat 2 ts.date.d) ++
      (if ts.sec = 0 then [] else ' ' :: timeChars ts.sec)) := by
    unfold tsChars dateChars
    rw [hp]
    simp [List.cons_append, List.append_assoc]
  rw [hts] at hminus ⊢
  exact isIntStr_false_head_digit hpd hminus (by decide)

/-! ### Frames the CSV round trip preserves -/

/-- A character safe to embed unquoted in a CSV cell (`to_csv` would
quote cells holding any of these, which the model does not emulate). -/
def safeChar (c : Char) : Bool :=
  !(c = ',' || c = '\n' || c = '\r' || c = '"')

/-- All characters CSV-safe. -/
def safeChars (l : List Char) : Bool := l.all safeChar

/-- A character that can occur in a token `read_csv` converts away from
string: the numeric syntax (digits, sign, decimal point, exponent), the
boolean literals `True`/`False` in any letter case, the infinity tokens
`inf`/`Infinity` in any letter case, and the default NA markers
(`''`, `'#N/A'`, `'#N/A N/A'`, `'#NA'`, `'-1.#IND'`, `'-1.#QNAN'`,
`'-NaN'`, `'-nan'`, `'1.#IND'`, `'1.#QNAN'`, `'<NA>'`, `'N/A'`, `'NA'`,
`'NULL'`, `'NaN'`, `'None'`, `'n/a'`, `'nan'`, `'null'`). Every such
token is built solely from these characters, so a token holding any
character outside this set is handed back by `read_csv` verbatim. -/
def convertibleChar (c : Char) : Bool :=
  c.isDigit || c = '+' || c = '-' || c = '.' || c = '#' || c = '/' ||
  c = ' ' || c = '<' || c = '>' ||
  c = 'a' || c = 'e' || c = 'f' || c = 'i' || c = 'l' || c = 'n' ||
  c = 'o' || c = 'r' || c = 's' || c = 't' || c = 'u' || c = 'y' ||
  c = 'A' || c = 'D' || c = 'E' || c = 'F' || c = 'I' || c = 'L' ||
  c = 'N' || c = 'Q' || c = 'R' || c = 'S' || c = 'T' || c = 'U' || c = 'Y'

/-- At least one character that no integer, float, boolean, infinity or
NA token uses: guarantees `read_csv` keeps the token a string. -/
def plainToken (l : List Char) : Bool :=
  l.any (fun c => !convertibleChar c)

/-- An integer cell. -/
def cellIntOk : Cell → Bool
  | .i _ => true
  | _ => false

/-- A plain-text cell that `read_csv` reproduces verbatim: nonempty,
CSV-safe, and containing a character outside `convertibleChar`, so no
numeric, boolean, infinity or NA conversion can fire on it. -/
def cellStrOk : Cell → Bool
  | .s str => !str.data.isEmpty && safeChars str.data && plainToken str.data
  | _ => false

/-- A timestamp cell. -/
def cellTsOk : Cell → Bool
  | .t _ => true
  | _ => false

/-- Any of the three reproducible cell kinds. -/
def cellAnyOk (c : Cell) : Bool :=
  cellIntOk c || cellStrOk c || cellTsOk c

/-- Column `j` is type-homogeneous: the `Date` column holds timestamps,
every other column is all-integers or all-plain-strings. -/
def colOk (f : Frame) (j : Nat) : Bool :=
  if hdrIdx f.header "Date" = some j then
    f.rows.all (fun r => cellTsOk (r.getD j (.s "")))
  else
    f.rows.all (fun r => cellIntOk (r.getD j (.s ""))) ||
    f.rows.all (fun r => cellStrOk (r.getD j (.s "")))

/-- No repeated column names (`read_csv` would mangle duplicates). -/
def nodupStr : List String → Bool
  | [] => true
  | h :: t => !t.contains h && nodupStr t

/-- A Frame the CSV round trip provably preserves: a nonempty header of
distinct CSV-safe nonempty names, rectangular rows, and type-homogeneous
columns (timestamps only in `Date`; strings plain text, i.e. holding a
character no numeric/boolean/infinity/NA token uses, so none of the
`read_csv` conversions this model omits can fire). Every Dataset the
remote loader assembles satisfies this: each of the ten symbol names
contains such a character. -/
def wfFrame (f : Frame) : Bool :=
  !f.header.isEmpty &&
  nodupStr f.header &&
  f.header.all (fun nm => !nm.data.isEmpty && safeChars nm.data) &&
  f.rows.all (fun r => r.length = f.header.length) &&
  (List.range f.header.length).all (fun j => colOk f j)

/-! ### Cell-level round-trip lemmas -/

theorem string_mk_data (s : String) : (⟨s.data⟩ : String) = s := by
  cases s
  rfl

theorem cellTsOk_elim {c : Cell} (h : cellTsOk c = true) : ∃ ts, c = .t ts := by
  cases c with
  | t ts => exact ⟨ts, rfl⟩
  | s _ => cases h
  | i _ => cases h

theorem cellIntOk_elim {c : Cell} (h : cellIntOk c = true) : ∃ k, c = .i k := by
  cases c with
  | i k => exact ⟨k, rfl⟩
  | s _ => cases h
  | t _ => cases h

theorem cellStrOk_elim {c : Cell} (h : cellStrOk c = true) :
    ∃ str, c = .s str ∧ str.data ≠ [] ∧ safeChars str.data = true ∧
      plainToken str.data = true := by
  cases c with
  | s str =>
    have h2 : (!str.data.isEmpty && safeChars str.data &&
        plainToken str.data) = true := h
    simp only [Bool.and_eq_true, Bool.not_eq_true'] at h2
    exact ⟨str, rfl, List.isEmpty_eq_false.mp h2.1.1, h2.1.2, h2.2⟩
  | i _ => cases h
  | t _ => cases h

theorem digit_ne_of {c : Char} (h : c.isDigit = true) (x : Char)
    (hx : x.isDigit = false) : c ≠ x := by
  intro he
  subst he
  rw [h] at hx
  cases hx

theorem not_convertible_facts {x : Char} (h : convertibleChar x = false) :
    x.isDigit = false ∧ x ≠ '-' := by
  constructor
  · cases hd : x.isDigit
    · rfl
    · have h2 : convertibleChar x = true := by simp [convertibleChar, hd]
      rw [h2] at h
      cases h
  · intro he
    subst he
    have h2 : convertibleChar '-' = true := by decide
    rw [h2] at h
    cases h

theorem isIntStr_false_of_plainToken {l : List Char}
    (h : plainToken l = true) : isIntStr l = false := by
  obtain ⟨x, hx, hxp⟩ := List.any_eq_true.mp h
  have hxfacts : x.isDigit = false ∧ x ≠ '-' :=
    not_convertible_facts (by simpa using hxp)
  cases l with
  | nil => cases hx
  | cons c rest =>
    show (if c = '-' then (!rest.isEmpty && rest.all Char.isDigit)
          else (c :: rest).all Char.isDigit) = false
    by_cases hc : c = '-'
    · rw [if_pos hc]
      subst hc
      rcases List.mem_cons.mp hx with h1 | h1
      · exact absurd h1 hxfacts.2
      · have h2 : rest.all Char.isDigit = false :=
          List.all_eq_false.mpr ⟨x, h1, fun hh => by rw [hxfacts.1] at hh; cases hh⟩
        rw [h2, Bool.and_false]
    · rw [if_neg hc]
      exact List.all_eq_false.mpr ⟨x, hx, fun hh => by rw [hxfacts.1] at hh; cases hh⟩

theorem cellChars_comma_free {c : Cell} (h : cellAnyOk c = true) :
    ',' ∉ cellChars c := by
  rcases Bool.or_eq_true_iff.mp h with h2 | h2
  rcases Bool.or_eq_true_iff.mp h2 with h3 | h3
  · obtain ⟨k, rfl⟩ := cellIntOk_elim h3
    intro hm
    rcases mem_intChars hm with h4 | h4
    · exact absurd h4 (by decide)
    · exact absurd h4 (by decide)
  · obtain ⟨str, rfl, _, hsafe, _⟩ := cellStrOk_elim h3
    intro hm
    have h4 := List.all_eq_true.mp hsafe ',' hm
    exact absurd h4 (by decide)
  · obtain ⟨ts, rfl⟩ := cellTsOk_elim h2
    intro hm
    rcases mem_tsChars hm with h4 | h4 | h4 | h4
    · exact absurd h4 (by decide)
    · exact absurd h4 (by decide)
    · exact absurd h4 (by decide)
    · exact absurd h4 (by decide)

theorem cellChars_newline_free {c : Cell} (h : cellAnyOk c = true) :
    '\n' ∉ cellChars c := by
  rcases Bool.or_eq_true_iff.mp h with h2 | h2
  rcases Bool.or_eq_true_iff.mp h2 with h3 | h3
  · obtain ⟨k, rfl⟩ := cellIntOk_elim h3
    intro hm
    rcases mem_intChars hm with h4 | h4
    · exact absurd h4 (by decide)
    · exact absurd h4 (by decide)
  · obtain ⟨str, rfl, _, hsafe, _⟩ := cellStrOk_elim h3
    intro hm
    have h4 := List.all_eq_true.mp hsafe '\n' hm
    exact absurd h4 (by decide)
  · obtain ⟨ts, rfl⟩ := cellTsOk_elim h2
    intro hm
    rcases mem_tsChars hm with h4 | h4 | h4 | h4
    · exact absurd h4 (by decide)
    · exact absurd h4 (by decide)
    · exact absurd h4 (by decide)
    · exact absurd h4 (by decide)

theorem cellChars_ne_nil {c : Cell} (h : cellAnyOk c = true) :
    cellChars c ≠ [] := by
  rcases Bool.or_eq_true_iff.mp h with h2 | h2
  rcases Bool.or_eq_true_iff.mp h2 with h3 | h3
  · obtain ⟨k, rfl⟩ := cellIntOk_elim h3
    exact intChars_ne_nil k
  · obtain ⟨str, rfl, hne, _, _⟩ := cellStrOk_elim h3
    exact hne
  · obtain ⟨ts, rfl⟩ := cellTsOk_elim h2
    exact tsChars_ne_nil ts

/-! ### Reassembling rows from parsed tokens -/

theorem convCells_eq (flag : Nat → Bool) :
    ∀ (cs ds : List Cell) (j : Nat), cs.length = ds.length →
      (∀ (i : Nat) (h : i < cs.length) (h' : i < ds.length),
        (if flag (j + i) then Cell.i (parseIntChars (cellChars cs[i]))
         else Cell.s ⟨cellChars cs[i]⟩) = ds[i]) →
      convCells flag j (cs.map cellChars) = ds := by
  intro cs
  induction cs with
  | nil =>
    intro ds j hlen _
    cases ds with
    | nil => rfl
    | cons d ds' => simp at hlen
  | cons c cs' ih =>
    intro ds j hlen hspec
    cases ds with
    | nil => simp at hlen
    | cons d ds' =>
      show (if flag j then Cell.i (parseIntChars (cellChars c))
            else Cell.s ⟨cellChars c⟩) :: convCells flag (j + 1) (cs'.map cellChars) =
        d :: ds'
      have h0 := hspec 0 (by simp) (by simp)
      simp only [List.getElem_cons_zero, Nat.add_zero] at h0
      have htail : convCells flag (j + 1) (cs'.map cellChars) = ds' := by
        refine ih ds' (j + 1) (by simpa using hlen) ?_
        intro i h h'
        have hstep := hspec (i + 1) (by simp only [List.length_cons]; omega)
          (by simp only [List.length_cons]; omega)
        simp only [List.getElem_cons_succ] at hstep
        have harg : j + (i + 1) = j + 1 + i := by omega
        rw [harg] at hstep
        exact hstep
      rw [h0, htail]

theorem allIntCol_int {df : Frame} {j : Nat}
    (hrect : ∀ r ∈ df.rows, r.length = df.header.length)
    (hj : j < df.header.length)
    (hall : ∀ r ∈ df.rows, cellIntOk (r.getD j (.s "")) = true) :
    allIntCol (df.rows.map (fun r => r.map cellChars)) j = true := by
  refine List.all_eq_true.mpr ?_
  intro r' hr'
  obtain ⟨r, hr, rfl⟩ := List.mem_map.mp hr'
  have hjr : j < r.length := by rw [hrect r hr]; exact hj
  have hcell := hall r hr
  rw [List.getD_eq_getElem _ _ hjr] at hcell
  obtain ⟨k, hk⟩ := cellIntOk_elim hcell
  rw [List.getD_eq_getElem _ _ (by rw [List.length_map]; exact hjr),
      List.getElem_map, hk]
  exact isIntStr_intChars k

theorem allIntCol_ts_false {df : Frame} {j : Nat} {r0 : List Cell}
    (hrect : ∀ r ∈ df.rows, r.length = df.header.length)
    (hj : j < df.header.length) (hr0 : r0 ∈ df.rows)
    (hall : ∀ r ∈ df.rows, cellTsOk (r.getD j (.s "")) = true) :
    allIntCol (df.rows.map (fun r => r.map cellChars)) j = false := by
  have hjr : j < r0.length := by rw [hrect r0 hr0]; exact hj
  have hcell := hall r0 hr0
  rw [List.getD_eq_getElem _ _ hjr] at hcell
  obtain ⟨ts, hts⟩ := cellTsOk_elim hcell
  refine List.all_eq_false.mpr ⟨r0.map cellChars, List.mem_map_of_mem _ hr0, ?_⟩
  rw [List.getD_eq_getElem _ _ (by rw [List.length_map]; exact hjr),
      List.getElem_map, hts]
  show ¬ isIntStr (tsChars ts) = true
  rw [isIntStr_tsChars]
  simp

theorem allIntCol_str_false {df : Frame} {j : Nat} {r0 : List Cell}
    (hrect : ∀ r ∈ df.rows, r.length = df.header.length)
    (hj : j < df.header.length) (hr0 : r0 ∈ df.rows)
    (hall : ∀ r ∈ df.rows, cellStrOk (r.getD j (.s "")) = true) :
    allIntCol (df.rows.map (fun r => r.map cellChars)) j = false := by
  have hjr : j < r0.length := by rw [hrect r0 hr0]; exact hj
  have hcell := hall r0 hr0
  rw [List.getD_eq_getElem _ _ hjr] at hcell
  obtain ⟨str, hstr, _, _, hplain⟩ := cellStrOk_elim hcell
  refine List.all_eq_false.mpr ⟨r0.map cellChars, List.mem_map_of_mem _ hr0, ?_⟩
  rw [List.getD_eq_getElem _ _ (by rw [List.length_map]; exact hjr),
      List.getElem_map, hstr]
  show ¬ isIntStr str.data = true
  rw [isIntStr_false_of_plainToken hplain]
  simp

/-! ### Undoing the Date coercion -/

theorem set_getElem?_self {α} :
    ∀ {l : List α} {i : Nat} {a : α}, l[i]? = some a → l.set i a = l := by
  intro l
  induction l with
  | nil =>
    intro i a h
    exact absurd h (by simp)
  | cons x xs ih =>
    intro i a h
    cases i with
    | zero =>
      simp only [List.getElem?_cons_zero] at h
      have := Option.some.inj h
      rw [← this]
      rfl
    | succ n =>
      simp only [List.getElem?_cons_succ] at h
      show x :: xs.set n a = x :: xs
      rw [ih h]

theorem coerceRow_set {j : Nat} {r : List Cell} {ts : Timestamp}
    (h : r[j]? = some (.t ts)) :
    coerceRow j (r.set j (.s ⟨tsChars ts⟩)) = some r := by
  have hlt : j < r.length := by
    by_cases hlt : j < r.length
    · exact hlt
    · rw [List.getElem?_eq_none (Nat.le_of_not_lt hlt)] at h
      cases h
  have hset : (r.set j (Cell.s ⟨tsChars ts⟩))[j]? = some (Cell.s ⟨tsChars ts⟩) :=
    List.getElem?_set_self hlt
  have hcd : coerceDateCell (.s ⟨tsChars ts⟩) = some (.t ts) := by
    show (parseTsChars (⟨tsChars ts⟩ : String).data).map Cell.t = some (.t ts)
    rw [show (⟨tsChars ts⟩ : String).data = tsChars ts from rfl, parseTs_tsChars]
    rfl
  unfold coerceRow
  simp only [hset, hcd, Option.map_some']
  rw [List.set_set, set_getElem?_self h]

theorem coerceRows_map {j : Nat} {g : List Cell → List Cell} :
    ∀ {rows : List (List Cell)}, (∀ r ∈ rows, coerceRow j (g r) = some r) →
      coerceRows j (rows.map g) = some rows := by
  intro rows
  induction rows with
  | nil => intro _; rfl
  | cons r rest ih =>
    intro h
    show coerceRows j (g r :: rest.map g) = some (r :: rest)
    unfold coerceRows
    simp only [h r (List.mem_cons_self _ _),
      ih (fun r' hr' => h r' (List.mem_cons_of_mem _ hr')), Option.map_some']

/-- Syntactic half of the round trip: `read_csv` applied to the rendered
CSV of a well-formed frame recovers the header verbatim and re-types each
token row with the column-wide integer flags. -/
theorem readCsv_render (df : Frame)
    (hhdr_ne : df.header ≠ [])
    (hnames : ∀ nm ∈ df.header, nm.data ≠ [] ∧ safeChars nm.data = true)
    (hrect : ∀ r ∈ df.rows, r.length = df.header.length)
    (hany : ∀ r ∈ df.rows, ∀ cell ∈ r, cellAnyOk cell = true) :
    readCsv (convert_df_to_csv df) =
      some ⟨df.header, df.rows.map (fun r =>
        convCells (allIntCol (df.rows.map (fun r' => r'.map cellChars))) 0
          (r.map cellChars))⟩ := by
  have hheadcells_ne : df.header.map String.data ≠ [] := by
    intro hc
    exact hhdr_ne (List.map_eq_nil_iff.mp hc)
  have hheadline_comma : ∀ c ∈ df.header.map String.data, ',' ∉ c := by
    intro c hc hmem
    obtain ⟨nm, hnm, rfl⟩ := List.mem_map.mp hc
    have h2 := List.all_eq_true.mp (hnames nm hnm).2 ',' hmem
    exact absurd h2 (by decide)
  have hheadline_nl : '\n' ∉ cellsJoin (df.header.map String.data) := by
    intro hmem
    rcases mem_cellsJoin hmem with h2 | ⟨c, hc, hmemc⟩
    · exact absurd h2 (by decide)
    · obtain ⟨nm, hnm, rfl⟩ := List.mem_map.mp hc
      have h3 := List.all_eq_true.mp (hnames nm hnm).2 '\n' hmemc
      exact absurd h3 (by decide)
  have hheadline_ne : cellsJoin (df.header.map String.data) ≠ [] := by
    refine cellsJoin_ne_nil hheadcells_ne ?_
    intro c hc
    obtain ⟨nm, hnm, rfl⟩ := List.mem_map.mp hc
    exact (hnames nm hnm).1
  have hrowcells_ne : ∀ r ∈ df.rows, r.map cellChars ≠ [] := by
    intro r hr hmapnil
    have hrnil : r = [] := List.map_eq_nil_iff.mp hmapnil
    have hlen := hrect r hr
    rw [hrnil] at hlen
    cases hh : df.header with
    | nil => exact hhdr_ne hh
    | cons a t => rw [hh] at hlen; simp at hlen
  have hrowline : ∀ r ∈ df.rows,
      '\n' ∉ cellsJoin (r.map cellChars) ∧ cellsJoin (r.map cellChars) ≠ [] := by
    intro r hr
    constructor
    · intro hmem
      rcases mem_cellsJoin hmem with h2 | ⟨c, hc, hmemc⟩
      · exact absurd h2 (by decide)
      · obtain ⟨cell, hcell, rfl⟩ := List.mem_map.mp hc
        exact cellChars_newline_free (hany r hr cell hcell) hmemc
    · refine cellsJoin_ne_nil (hrowcells_ne r hr) ?_
      intro c hc
      obtain ⟨cell, hcell, rfl⟩ := List.mem_map.mp hc
      exact cellChars_ne_nil (hany r hr cell hcell)
  have hlines : (splitSep '\n' (linesJoin
      (cellsJoin (df.header.map String.data) ::
        df.rows.map (fun r => cellsJoin (r.map cellChars))))).filter
      (fun l => !l.isEmpty) =
      cellsJoin (df.header.map String.data) ::
        df.rows.map (fun r => cellsJoin (r.map cellChars)) := by
    refine splitFilter_linesJoin ?_
    intro l hl
    rcases List.mem_cons.mp hl with h2 | h2
    · rw [h2]
      exact ⟨hheadline_nl, hheadline_ne⟩
    · obtain ⟨r, hr, rfl⟩ := List.mem_map.mp h2
      exact hrowline r hr
  have hhdrsplit : splitSep ',' (cellsJoin (df.header.map String.data)) =
      df.header.map String.data :=
    splitSep_cellsJoin hheadcells_ne hheadline_comma
  have hhdr2 : (df.header.map String.data).map (fun c => (⟨c⟩ : String)) =
      df.header := by
    rw [List.map_map]
    have h2 : ∀ nm ∈ df.header,
        ((fun c => (⟨c⟩ : String)) ∘ String.data) nm = id nm :=
      fun nm _ => string_mk_data nm
    rw [List.map_congr_left h2, List.map_id]
  have hraw : (df.rows.map (fun r => cellsJoin (r.map cellChars))).map
      (splitSep ',') = df.rows.map (fun r => r.map cellChars) := by
    rw [List.map_map]
    refine List.map_congr_left ?_
    intro r hr
    show splitSep ',' (cellsJoin (r.map cellChars)) = r.map cellChars
    refine splitSep_cellsJoin (hrowcells_ne r hr) ?_
    intro c hc
    obtain ⟨cell, hcell, rfl⟩ := List.mem_map.mp hc
    exact cellChars_comma_free (hany r hr cell hcell)
  have hcond : (df.rows.map (fun r => r.map cellChars)).all
      (fun r => r.length = df.header.length) = true := by
    refine List.all_eq_true.mpr ?_
    intro r' hr'
    obtain ⟨r, hr, rfl⟩ := List.mem_map.mp hr'
    simp [List.length_map, hrect r hr]
  unfold readCsv
  rw [show (convert_df_to_csv df).data = csvChars df from rfl]
  simp only [csvChars, hlines, hhdrsplit, hhdr2, hraw, hcond, if_true]
  rw [List.map_map]
  rfl

/-- C2 (amended): for a well-formed filtered Dataset — type-homogeneous
columns whose text cells each hold a character outside the alphabet of
the numeric, boolean, infinity and NA tokens `read_csv` converts —
`read_csv` plus the upload branch's Date coercion applied to the
exported CSV bytes recovers the Dataset exactly. -/
theorem c2_roundtrip (df : Frame) (h : wfFrame df = true) :
    readUpload (convert_df_to_csv df) = some df := by
  have h' := h
  unfold wfFrame at h'
  simp only [Bool.and_eq_true] at h'
  obtain ⟨⟨⟨⟨hne0, _⟩, hnames0⟩, hrect0⟩, hcols0⟩ := h'
  have hhdr_ne : df.header ≠ [] := by
    have h2 : df.header.isEmpty = false := by
      cases hie : df.header.isEmpty
      · rfl
      · rw [hie] at hne0; cases hne0
    exact List.isEmpty_eq_false.mp h2
  have hnames : ∀ nm ∈ df.header, nm.data ≠ [] ∧ safeChars nm.data = true := by
    intro nm hnm
    have h2 := List.all_eq_true.mp hnames0 nm hnm
    simp only [Bool.and_eq_true, Bool.not_eq_true'] at h2
    exact ⟨List.isEmpty_eq_false.mp h2.1, h2.2⟩
  have hrect : ∀ r ∈ df.rows, r.length = df.header.length := by
    intro r hr
    exact of_decide_eq_true (List.all_eq_true.mp hrect0 r hr)
  have hcols : ∀ j, j < df.header.length → colOk df j = true := by
    intro j hj
    exact List.all_eq_true.mp hcols0 j (List.mem_range.mpr hj)
  have hany : ∀ r ∈ df.rows, ∀ cell ∈ r, cellAnyOk cell = true := by
    intro r hr cell hcell
    obtain ⟨i, hi, hget⟩ := List.mem_iff_getElem.mp hcell
    have hin : i < df.header.length := by rw [← hrect r hr]; exact hi
    have hco := hcols i hin
    unfold colOk at hco
    split at hco
    · have h2 := List.all_eq_true.mp hco r hr
      rw [List.getD_eq_getElem _ _ hi, hget] at h2
      unfold cellAnyOk
      rw [h2]
      simp
    · rcases Bool.or_eq_true_iff.mp hco with hcase | hcase
      · have h2 := List.all_eq_true.mp hcase r hr
        rw [List.getD_eq_getElem _ _ hi, hget] at h2
        unfold cellAnyOk
        rw [h2]
        simp
      · have h2 := List.all_eq_true.mp hcase r hr
        rw [List.getD_eq_getElem _ _ hi, hget] at h2
        unfold cellAnyOk
        rw [h2]
        simp
  have hread := readCsv_render df hhdr_ne hnames hrect hany
  unfold readUpload
  rw [hread]
  show coerceFrame ⟨df.header, df.rows.map (fun r =>
    convCells (allIntCol (df.rows.map (fun r' => r'.map cellChars))) 0
      (r.map cellChars))⟩ = some df
  unfold coerceFrame
  cases hdate : hdrIdx df.header "Date" with
  | none =>
    simp only [hdate]
    have hperrow : ∀ r ∈ df.rows,
        convCells (allIntCol (df.rows.map (fun r' => r'.map cellChars))) 0
          (r.map cellChars) = id r := by
      intro r hr
      refine convCells_eq _ r r 0 rfl ?_
      intro i hilt hilt'
      rw [Nat.zero_add]
      have hin : i < df.header.length := by rw [← hrect r hr]; exact hilt
      have hcoi := hcols i hin
      unfold colOk at hcoi
      rw [if_neg (by rw [hdate]; intro hcontra; cases hcontra)] at hcoi
      rcases Bool.or_eq_true_iff.mp hcoi with hcase | hcase
      · have hflag : allIntCol (df.rows.map (fun r' => r'.map cellChars)) i = true :=
          allIntCol_int hrect hin (fun r' hr' => List.all_eq_true.mp hcase r' hr')
        rw [hflag, if_pos rfl]
        have hcelli := List.all_eq_true.mp hcase r hr
        rw [List.getD_eq_getElem _ _ hilt] at hcelli
        obtain ⟨k, hk⟩ := cellIntOk_elim hcelli
        rw [hk, show cellChars (Cell.i k) = intChars k from rfl,
          parseIntChars_intChars]
      · have hflag : allIntCol (df.rows.map (fun r' => r'.map cellChars)) i = false :=
          allIntCol_str_false hrect hin hr
            (fun r' hr' => List.all_eq_true.mp hcase r' hr')
        rw [hflag, if_neg (by simp)]
        have hcells := List.all_eq_true.mp hcase r hr
        rw [List.getD_eq_getElem _ _ hilt] at hcells
        obtain ⟨str, hstr, _, _, _⟩ := cellStrOk_elim hcells
        rw [hstr, show cellChars (Cell.s str) = str.data from rfl, string_mk_data]
    rw [List.map_congr_left hperrow, List.map_id]
  | some jd =>
    simp only [hdate]
    have hjdlt : jd < df.header.length := hdrIdx_lt hdate
    have hcojd := hcols jd hjdlt
    unfold colOk at hcojd
    rw [if_pos hdate] at hcojd
    have hperrow : ∀ r ∈ df.rows,
        coerceRow jd (convCells (allIntCol (df.rows.map (fun r' => r'.map cellChars))) 0
          (r.map cellChars)) = some r := by
      intro r hr
      have hjr : jd < r.length := by rw [hrect r hr]; exact hjdlt
      have hcell := List.all_eq_true.mp hcojd r hr
      rw [List.getD_eq_getElem _ _ hjr] at hcell
      obtain ⟨ts, hts⟩ := cellTsOk_elim hcell
      have htsq : r[jd]? = some (.t ts) := by
        rw [List.getElem?_eq_getElem hjr, hts]
      have hconv : convCells (allIntCol (df.rows.map (fun r' => r'.map cellChars))) 0
          (r.map cellChars) = r.set jd (.s ⟨tsChars ts⟩) := by
        refine convCells_eq _ r _ 0 (by rw [List.length_set]) ?_
        intro i hilt hilt'
        rw [Nat.zero_add]
        have hin : i < df.header.length := by rw [← hrect r hr]; exact hilt
        by_cases hij : i = jd
        · subst hij
          have hflag : allIntCol (df.rows.map (fun r' => r'.map cellChars)) i = false :=
            allIntCol_ts_false hrect hin hr
              (fun r' hr' => List.all_eq_true.mp hcojd r' hr')
          rw [hflag, if_neg (by simp), hts, List.getElem_set_self]
          rfl
        · have hcoi := hcols i hin
          unfold colOk at hcoi
          rw [if_neg (by
            rw [hdate]
            intro hcontra
            exact hij (Option.some.inj hcontra).symm)] at hcoi
          rcases Bool.or_eq_true_iff.mp hcoi with hcase | hcase
          · have hflag : allIntCol (df.rows.map (fun r' => r'.map cellChars)) i = true :=
              allIntCol_int hrect hin
                (fun r' hr' => List.all_eq_true.mp hcase r' hr')
            rw [hflag, if_pos rfl]
            have hcelli := List.all_eq_true.mp hcase r hr
            rw [List.getD_eq_getElem _ _ hilt] at hcelli
            obtain ⟨k, hk⟩ := cellIntOk_elim hcelli
            rw [hk, show cellChars (Cell.i k) = intChars k from rfl,
              parseIntChars_intChars,
              List.getElem_set_ne (fun he => hij he.symm), hk]
          · have hflag : allIntCol (df.rows.map (fun r' => r'.map cellChars)) i = false :=
              allIntCol_str_false hrect hin hr
                (fun r' hr' => List.all_eq_true.mp hcase r' hr')
            rw [hflag, if_neg (by simp)]
            have hcells := List.all_eq_true.mp hcase r hr
            rw [List.getD_eq_getElem _ _ hilt] at hcells
            obtain ⟨str, hstr, _, _, _⟩ := cellStrOk_elim hcells
            rw [hstr, show cellChars (Cell.s str) = str.data from rfl,
              string_mk_data, List.getElem_set_ne (fun he => hij he.symm), hstr]
      rw [hconv]
      exact coerceRow_set htsq
    rw [coerceRows_map hperrow, Option.map_some']

/-- An uploaded CSV whose `Note` column mixes an integer-looking token
with a plain one, so `read_csv` types the column as strings. -/
def c2Csv : String :=
  "Date,Symbol,Close,Note\n2024-01-01,AA,10,5\n2024-01-02,BB,11,x\n"

/-- The Dataset the pipeline produces from `c2Csv` after selecting
symbol AA: its `Note` cell is the string "5". -/
def c2Df : Frame :=
  ⟨["Date", "Symbol", "Close", "Note"],
   [[.t ⟨⟨2024, 1, 1⟩, 0⟩, .s "AA", .i 10, .s "5"]]⟩

/-- What parsing the exported bytes of `c2Df` yields: the `Note` column
is now all integer-looking, so `read_csv` re-types it and the cell comes
back as the integer 5, not the string "5". -/
def c2Df' : Frame :=
  ⟨["Date", "Symbol", "Close", "Note"],
   [[.t ⟨⟨2024, 1, 1⟩, 0⟩, .s "AA", .i 10, .i 5]]⟩

/-- C2 counterexample: a filtered Dataset whose export does not round
trip. Filtering removed the row that kept the `Note` column textual, so
re-parsing the exported bytes re-infers the column as integers and the
parsed rows are not column-for-column equal to the filtered Dataset. -/
theorem c2_counterexample :
    script .upload (fun _ => none) (some c2Csv) pickFirst
        ⟨2024, 1, 1⟩ ⟨2024, 12, 31⟩ =
      .completed c2Df (convert_df_to_csv c2Df) [] ∧
    readUpload (convert_df_to_csv c2Df) = some c2Df' ∧
    c2Df' ≠ c2Df :=
  ⟨by rfl, by rfl, by decide⟩

/-- Witness for C2 at a concrete two-row remote-shaped Dataset. -/
theorem c2_roundtrip_witness :
    readUpload (convert_df_to_csv
      ⟨["Date", "Symbol", "Close"],
       [[.t ⟨⟨2024, 1, 5⟩, 0⟩, .s "SONY", .i 12],
        [.t ⟨⟨2024, 1, 6⟩, 43200⟩, .s "SONY", .i (-3)]]⟩) =
      some ⟨["Date", "Symbol", "Close"],
       [[.t ⟨⟨2024, 1, 5⟩, 0⟩, .s "SONY", .i 12],
        [.t ⟨⟨2024, 1, 6⟩, 43200⟩, .s "SONY", .i (-3)]]⟩ :=
  c2_roundtrip
    ⟨["Date", "Symbol", "Close"],
     [[.t ⟨⟨2024, 1, 5⟩, 0⟩, .s "SONY", .i 12],
      [.t ⟨⟨2024, 1, 6⟩, 43200⟩, .s "SONY", .i (-3)]]⟩ (by decide)

end Eros
